import Mathlib

/-!
Shallow embedding of `src/abefw_mangler.py` (an ASoC/ABE firmware "topology"
blob decoder).  The byte stream is a `List Nat` of bytes; the cursor is an
explicit position.  `struct`-based reads (`stream.read(n)` followed by
`struct.unpack`) are modelled by `readExact`, which fails (Python raises
`struct.error`) when fewer than `n` bytes remain.  Plain `fw.read(n)` calls
(TLV payloads, coefficient chunks, firmware memory segments, config blobs)
are modelled by `readRaw`, which, like Python file reads, silently returns
the remaining bytes when the stream is shorter.  Python exceptions
(`struct.error`, `ValueError` from `IntEnum` construction on unknown codes)
are modelled as `Option.none` results.  Text fields (`.decode('utf-8')`
followed by `.rstrip('\x00')`) are modelled as their raw bytes with trailing
zero bytes removed; UTF-8 validity itself is not modelled.
-/

set_option maxRecDepth 65536

namespace Abefw

/-- A byte stream: the whole input file as a list of bytes. -/
abbrev ByteSeq := List Nat

/-- Model of `stream.read(n)` followed by `struct.unpack`: fails unless `n`
bytes remain at position `p`; on success returns the bytes and the new
position. -/
def readExact (s : ByteSeq) (p n : Nat) : Option (List Nat × Nat) :=
  if p + n ≤ s.length then some ((s.drop p).take n, p + n) else none

/-- Model of a bare `fw.read(n)`: returns up to `n` bytes, fewer when the
stream ends, and the new cursor position (Python file reads do not fail at
end of stream). -/
def readRaw (s : ByteSeq) (p n : Nat) : List Nat × Nat :=
  ((s.drop p).take n, p + ((s.drop p).take n).length)

/-- Little-endian 32-bit value of the first four bytes of a list
(`struct` format character `L` with `<` byte order). -/
def le32 (b : List Nat) : Nat :=
  b.getD 0 0 + 256 * b.getD 1 0 + 65536 * b.getD 2 0 + 16777216 * b.getD 3 0

/-- Python's `bytes.decode('utf-8').rstrip('\x00')` on a fixed-width text
field, modelled on raw bytes: remove trailing zero bytes. -/
def trimNul (b : List Nat) : List Nat :=
  (b.reverse.dropWhile (fun x => x == 0)).reverse

/-- Signed reinterpretation of a 32-bit value (`struct` format character
`l`), used for the DAPM widget `reg` field. -/
def asInt32 (n : Nat) : Int :=
  if n < 2147483648 then (n : Int) else (n : Int) - 4294967296

/-- The numeric values of the `FwType` IntEnum; constructing `FwType(t)` for
any other `t` raises `ValueError`. -/
def fwTypeCodes : List Nat := [1, 2, 3, 4, 5, 1000, 1001, 1002, 1003]

/-- The numeric values of the `SocType` IntEnum; constructing `SocType(c)`
for any other `c` raises `ValueError`. -/
def socTypeCodes : List Nat :=
  [0, 1, 2, 3, 4, 6, 7, 8, 9, 10, 11, 12, 64, 65, 66, 67, 68, 69]

/-- The scalar-mixer branch list of the Mixer block decoder
(`CONTROL_VOLSW, CONTROL_STROBE, CONTROL_VOLSW_SX, CONTROL_VOLSW_S8,
CONTROL_VOLSW_XR_SX, CONTROL_BYTES, CONTROL_BOOL_EXT, CONTROL_RANGE,
DAPM_VOLSW, DAPM_PIN`). -/
def mixerScalarCodes : List Nat := [1, 12, 2, 3, 4, 8, 9, 11, 64, 68]

/-- The enumerated-control branch list shared by the Mixer and DAPM widget
decoders (`CONTROL_ENUM, CONTROL_ENUM_EXT, CONTROL_ENUM_VALUE,
DAPM_ENUM_DOUBLE, DAPM_ENUM_VIRT, DAPM_ENUM_VALUE, DAPM_ENUM_EXT`). -/
def mixerEnumCodes : List Nat := [6, 7, 10, 65, 66, 67, 69]

/-- The scalar-mixer branch list of the DAPM widget decoder; note it lacks
`DAPM_PIN` (68), unlike the Mixer block's list. -/
def widgetScalarCodes : List Nat := [1, 12, 2, 3, 4, 8, 9, 11, 64]

/-- The enumerated-control branch list of the coefficient block decoder
(`CONTROL_ENUM, CONTROL_ENUM_EXT, CONTROL_ENUM_VALUE` only). -/
def coeffEnumCodes : List Nat := [6, 7, 10]

/-- Outcome of classifying a control header's low 8 index bits, per the
spec's Control-Kind Classifier. -/
inductive ControlKind where
  | scalar
  | enumerated
  | unsupported
  deriving DecidableEq, Repr

/-- The classification the script performs on the low 8 bits of a control
header's `index`: `SocType(code)` is constructed (raising `ValueError`,
modelled as `none`, for codes outside the enum), then the code is matched
against the scalar and enumerated branch lists of the Mixer block decoder;
enum members on neither list (only `CONTROL_EXT = 0`) fall to the
invalid-control branch, modelled as `unsupported`. -/
def classify (code : Nat) : Option ControlKind :=
  if code ∈ socTypeCodes then
    some (if code ∈ mixerScalarCodes then ControlKind.scalar
          else if code ∈ mixerEnumCodes then ControlKind.enumerated
          else ControlKind.unsupported)
  else none

/-- `SndSocFwHeader`, layout `'<4s5L'` (24 bytes). -/
structure SndSocFwHeader where
  magic : List Nat
  abi : Nat
  type : Nat
  vendor_type : Nat
  vendor_version : Nat
  size : Nat
  deriving DecidableEq, Repr

/-- Decoder for `SndSocFwHeader`: 24 bytes; `__post_init__` converts the
`type` field through `FwType`, failing for values outside the enum. -/
def decodeFwHeader (s : ByteSeq) (p : Nat) : Option (SndSocFwHeader × Nat) :=
  match readExact s p 24 with
  | none => none
  | some (b, p') =>
    if le32 (b.drop 8) ∈ fwTypeCodes then
      some (⟨b.take 4, le32 (b.drop 4), le32 (b.drop 8), le32 (b.drop 12),
             le32 (b.drop 16), le32 (b.drop 20)⟩, p')
    else none

/-- `abi_version`: peek 8 bytes (`'<4sL'`) and return the second field,
without advancing the cursor. -/
def abiVersion (s : ByteSeq) (p : Nat) : Option Nat :=
  match readExact s p 8 with
  | none => none
  | some (b, _) => some (le32 (b.drop 4))

/-- `SndSocFwControlTlv`, layout `'<2L'` (8 bytes). -/
structure SndSocFwControlTlv where
  numid : Nat
  length : Nat
  deriving DecidableEq, Repr

/-- Decoder for `SndSocFwControlTlv`. -/
def decodeControlTlv (s : ByteSeq) (p : Nat) : Option (SndSocFwControlTlv × Nat) :=
  match readExact s p 8 with
  | none => none
  | some (b, p') => some (⟨le32 b, le32 (b.drop 4)⟩, p')

/-- `SndSocFwControlHeader`, layout `'<32s3L'` (44 bytes), with the derived
`id_info` field. -/
structure SndSocFwControlHeader where
  name : List Nat
  index : Nat
  access : Nat
  tlv_size : Nat
  id_info : Nat
  deriving DecidableEq, Repr

/-- Decoder for `SndSocFwControlHeader`: 44 bytes; `__post_init__` sets
`id_info = SocType(index & 0xff)`, which raises (modelled as `none`) when
the low byte of `index` is not a `SocType` member. -/
def decodeControlHeader (s : ByteSeq) (p : Nat) :
    Option (SndSocFwControlHeader × Nat) :=
  match readExact s p 44 with
  | none => none
  | some (b, p') =>
    if le32 (b.drop 32) % 256 ∈ socTypeCodes then
      some (⟨trimNul (b.take 32), le32 (b.drop 32), le32 (b.drop 36),
             le32 (b.drop 40), le32 (b.drop 32) % 256⟩, p')
    else none

/-- `SndSocFwMixerControl`, layout `'<8L'` (32 bytes). -/
structure SndSocFwMixerControl where
  min : Nat
  max : Nat
  platform_max : Nat
  reg : Nat
  rreg : Nat
  shift : Nat
  rshift : Nat
  invert : Nat
  deriving DecidableEq, Repr

/-- Decoder for `SndSocFwMixerControl`. -/
def decodeMixerControl (s : ByteSeq) (p : Nat) :
    Option (SndSocFwMixerControl × Nat) :=
  match readExact s p 32 with
  | none => none
  | some (b, p') =>
    some (⟨le32 b, le32 (b.drop 4), le32 (b.drop 8), le32 (b.drop 12),
           le32 (b.drop 16), le32 (b.drop 20), le32 (b.drop 24),
           le32 (b.drop 28)⟩, p')

/-- Python-dict insertion used to build an enum control's `values` mapping:
replace the value in place when the key exists, otherwise append. -/
def dictInsert (m : List (List Nat × Nat)) (k : List Nat) (v : Nat) :
    List (List Nat × Nat) :=
  if m.any (fun q => q.1 == k) then
    m.map (fun q => if q.1 == k then (k, v) else q)
  else m ++ [(k, v)]

/-- The loop in `SndSocFwEnumControl.__post_init__`: walk the 16 texts and
their 16 positionally paired values, inserting each non-empty text into the
dict. -/
def buildEnumDict : List (List Nat) → List Nat → List (List Nat × Nat) →
    List (List Nat × Nat)
  | [], _, m => m
  | _ :: _, [], m => m
  | t :: ts, v :: vs, m =>
    buildEnumDict ts vs (if t = [] then m else dictInsert m t v)

/-- `SndSocFwEnumControl`, layout `'<7L1024s'` (1052 bytes): seven 32-bit
fields and a 1024-byte payload holding 16 32-byte texts followed by 512
bytes unpacked as 128 little-endian 32-bit values. -/
structure SndSocFwEnumControl where
  reg : Nat
  reg2 : Nat
  shift_l : Nat
  shift_r : Nat
  max : Nat
  mask : Nat
  count : Nat
  texts : List (List Nat)
  vals : List Nat
  values : List (List Nat × Nat)
  deriving DecidableEq, Repr

/-- Decoder for `SndSocFwEnumControl`: 1052 bytes; the payload's first 512
bytes are the 16 texts, the next 512 bytes are unpacked as `'<128L'`, and
the exported dict pairs each non-empty text with the value in the same slot
(only the first 16 of the 128 values can be used). -/
def decodeEnumControl (s : ByteSeq) (p : Nat) :
    Option (SndSocFwEnumControl × Nat) :=
  match readExact s p 1052 with
  | none => none
  | some (b, p') =>
    let payload := b.drop 28
    let texts := (List.range 16).map (fun i => trimNul ((payload.drop (32 * i)).take 32))
    let vals := (List.range 128).map (fun i => le32 (payload.drop (512 + 4 * i)))
    some (⟨le32 b, le32 (b.drop 4), le32 (b.drop 8), le32 (b.drop 12),
           le32 (b.drop 16), le32 (b.drop 20), le32 (b.drop 24),
           texts, vals, buildEnumDict texts (vals.take 16) []⟩, p')

/-- `SndSocFwKControl` (also aliased `SndSocFwDapmElems`), layout `'<L'`. -/
structure SndSocFwKControl where
  count : Nat
  deriving DecidableEq, Repr

/-- Decoder for `SndSocFwKControl`. -/
def decodeKControl (s : ByteSeq) (p : Nat) : Option (SndSocFwKControl × Nat) :=
  match readExact s p 4 with
  | none => none
  | some (b, p') => some (⟨le32 b⟩, p')

/-- `SndSocFwDapmGraphElem`, layout `'<32s32s32s'` (96 bytes); an empty
`control` text maps to `None`. -/
structure SndSocFwDapmGraphElem where
  sink : List Nat
  control : Option (List Nat)
  source : List Nat
  deriving DecidableEq, Repr

/-- Decoder for `SndSocFwDapmGraphElem`. -/
def decodeDapmGraphElem (s : ByteSeq) (p : Nat) :
    Option (SndSocFwDapmGraphElem × Nat) :=
  match readExact s p 96 with
  | none => none
  | some (b, p') =>
    let c := trimNul ((b.drop 32).take 32)
    some (⟨trimNul (b.take 32), if c = [] then none else some c,
           trimNul ((b.drop 64).take 32)⟩, p')

/-- `SndSocFwDapmWidget`, layout `'<L32s32slLL??2xL'` (88 bytes). -/
structure SndSocFwDapmWidget where
  id : Nat
  name : List Nat
  sname : List Nat
  reg : Int
  shift : Nat
  mask : Nat
  invert : Bool
  ignore_suspend : Bool
  kcontrol_count : Nat
  deriving DecidableEq, Repr

/-- Decoder for `SndSocFwDapmWidget`: id(4), name(32), sname(32), signed
reg(4), shift(4), mask(4), invert(1), ignore_suspend(1), 2 pad bytes,
kcontrol_count(4). -/
def decodeDapmWidget (s : ByteSeq) (p : Nat) :
    Option (SndSocFwDapmWidget × Nat) :=
  match readExact s p 88 with
  | none => none
  | some (b, p') =>
    some (⟨le32 b, trimNul ((b.drop 4).take 32), trimNul ((b.drop 36).take 32),
           asInt32 (le32 (b.drop 68)), le32 (b.drop 72), le32 (b.drop 76),
           b.getD 80 0 != 0, b.getD 81 0 != 0, le32 (b.drop 84)⟩, p')

/-- `SndSocFileCoeffData`, layout `'<3L'` (12 bytes). -/
structure SndSocFileCoeffData where
  count : Nat
  size : Nat
  id : Nat
  deriving DecidableEq, Repr

/-- Decoder for `SndSocFileCoeffData`. -/
def decodeCoeffData (s : ByteSeq) (p : Nat) :
    Option (SndSocFileCoeffData × Nat) :=
  match readExact s p 12 with
  | none => none
  | some (b, p') => some (⟨le32 b, le32 (b.drop 4), le32 (b.drop 8)⟩, p')

/-- `AbeFirmwareHeader`, layout `'<5L'` (20 bytes). -/
structure AbeFirmwareHeader where
  version : Nat
  pmem_size : Nat
  cmem_size : Nat
  dmem_size : Nat
  smem_size : Nat
  deriving DecidableEq, Repr

/-- Decoder for `AbeFirmwareHeader`. -/
def decodeAbeFirmwareHeader (s : ByteSeq) (p : Nat) :
    Option (AbeFirmwareHeader × Nat) :=
  match readExact s p 20 with
  | none => none
  | some (b, p') =>
    some (⟨le32 b, le32 (b.drop 4), le32 (b.drop 8), le32 (b.drop 12),
           le32 (b.drop 16)⟩, p')

/-- One child of a Mixer block: the decoded control header plus whatever
body the branch on `id_info` decoded for it. -/
inductive MixerChild where
  | scalar (hdr : SndSocFwControlHeader) (mc : SndSocFwMixerControl)
      (tlv : Option (SndSocFwControlTlv × List Nat))
  | enum (hdr : SndSocFwControlHeader) (ec : SndSocFwEnumControl)
  | unsup (hdr : SndSocFwControlHeader)
  deriving DecidableEq, Repr

/-- The control header attached to a mixer child. -/
def MixerChild.hdr : MixerChild → SndSocFwControlHeader
  | .scalar h _ _ => h
  | .enum h _ => h
  | .unsup h => h

/-- True when a mixer child took the invalid-control (warning-only) branch. -/
def MixerChild.isUnsup : MixerChild → Bool
  | .unsup _ => true
  | _ => false

/-- True when a mixer child took the scalar-mixer branch. -/
def MixerChild.isScalar : MixerChild → Bool
  | .scalar _ _ _ => true
  | _ => false

/-- The `for index in range(sfwk.count)` loop of the Mixer block decoder:
per iteration one `SndSocFwControlHeader`, then by `id_info` either a
`SndSocFwMixerControl` (plus a TLV header and `tlv.length` raw bytes when
`tlv_size != 0`), or a `SndSocFwEnumControl`, or nothing. -/
def decodeMixerChildren (s : ByteSeq) : Nat → Nat → Option (List MixerChild × Nat)
  | 0, p => some ([], p)
  | n + 1, p =>
    match decodeControlHeader s p with
    | none => none
    | some (hdr, p1) =>
      if hdr.id_info ∈ mixerScalarCodes then
        match decodeMixerControl s p1 with
        | none => none
        | some (mc, p2) =>
          if hdr.tlv_size ≠ 0 then
            match decodeControlTlv s p2 with
            | none => none
            | some (tlv, p3) =>
              match decodeMixerChildren s n (readRaw s p3 tlv.length).2 with
              | none => none
              | some (rest, p') =>
                some (.scalar hdr mc (some (tlv, (readRaw s p3 tlv.length).1)) :: rest, p')
          else
            match decodeMixerChildren s n p2 with
            | none => none
            | some (rest, p') => some (.scalar hdr mc none :: rest, p')
      else if hdr.id_info ∈ mixerEnumCodes then
        match decodeEnumControl s p1 with
        | none => none
        | some (ec, p2) =>
          match decodeMixerChildren s n p2 with
          | none => none
          | some (rest, p') => some (.enum hdr ec :: rest, p')
      else
        match decodeMixerChildren s n p1 with
        | none => none
        | some (rest, p') => some (.unsup hdr :: rest, p')

/-- The `for index in range(elem_info.count)` loop of the DAPM graph block
decoder: `n` fixed-size `SndSocFwDapmGraphElem` records. -/
def decodeGraphElems (s : ByteSeq) : Nat → Nat →
    Option (List SndSocFwDapmGraphElem × Nat)
  | 0, p => some ([], p)
  | n + 1, p =>
    match decodeDapmGraphElem s p with
    | none => none
    | some (e, p1) =>
      match decodeGraphElems s n p1 with
      | none => none
      | some (rest, p') => some (e :: rest, p')

/-- One control attached to a DAPM widget. -/
inductive WidgetChild where
  | scalar (hdr : SndSocFwControlHeader) (mc : SndSocFwMixerControl)
  | enum (hdr : SndSocFwControlHeader) (ec : SndSocFwEnumControl)
  | unsup (hdr : SndSocFwControlHeader)
  deriving DecidableEq, Repr

/-- The control header attached to a widget child. -/
def WidgetChild.hdr : WidgetChild → SndSocFwControlHeader
  | .scalar h _ => h
  | .enum h _ => h
  | .unsup h => h

/-- True when a widget child took the invalid-control (warning-only)
branch. -/
def WidgetChild.isUnsup : WidgetChild → Bool
  | .unsup _ => true
  | _ => false

/-- True when a widget child took the scalar-mixer branch. -/
def WidgetChild.isScalar : WidgetChild → Bool
  | .scalar _ _ => true
  | _ => false

/-- The `for mixer in range(widget.kcontrol_count)` loop of the DAPM widget
decoder, counting the iterations that still decode a fresh
`SndSocFwControlHeader` before their `SndSocFwMixerControl`. -/
def decodeWidgetScalarLoop (s : ByteSeq) : Nat → Nat →
    Option (List WidgetChild × Nat)
  | 0, p => some ([], p)
  | n + 1, p =>
    match decodeControlHeader s p with
    | none => none
    | some (h, p1) =>
      match decodeMixerControl s p1 with
      | none => none
      | some (mc, p2) =>
        match decodeWidgetScalarLoop s n p2 with
        | none => none
        | some (rest, p') => some (.scalar h mc :: rest, p')

/-- The `if widget.kcontrol_count != 0` body of the DAPM widget decoder:
decode one `SndSocFwControlHeader` and branch on its `id_info`.  The scalar
branch runs `kcontrol_count` iterations, the first reusing the header
already decoded, each later one decoding a fresh header; the enumerated
branch decodes exactly one `SndSocFwEnumControl`; any other kind only logs
a warning. -/
def decodeWidgetControls (s : ByteSeq) (count : Nat) (p : Nat) :
    Option (List WidgetChild × Nat) :=
  if count = 0 then some ([], p)
  else
    match decodeControlHeader s p with
    | none => none
    | some (hdr, p1) =>
      if hdr.id_info ∈ widgetScalarCodes then
        match decodeMixerControl s p1 with
        | none => none
        | some (mc, p2) =>
          match decodeWidgetScalarLoop s (count - 1) p2 with
          | none => none
          | some (rest, p') => some (.scalar hdr mc :: rest, p')
      else if hdr.id_info ∈ mixerEnumCodes then
        match decodeEnumControl s p1 with
        | none => none
        | some (ec, p2) => some ([.enum hdr ec], p2)
      else
        some ([.unsup hdr], p1)

/-- One decoded DAPM widget together with its attached controls. -/
structure WidgetEntry where
  widget : SndSocFwDapmWidget
  controls : List WidgetChild
  deriving DecidableEq, Repr

/-- The `for index in range(elem_info.count)` loop of the DAPM widget block
decoder. -/
def decodeWidgets (s : ByteSeq) : Nat → Nat → Option (List WidgetEntry × Nat)
  | 0, p => some ([], p)
  | n + 1, p =>
    match decodeDapmWidget s p with
    | none => none
    | some (w, p1) =>
      match decodeWidgetControls s w.kcontrol_count p1 with
      | none => none
      | some (cs, p2) =>
        match decodeWidgets s n p2 with
        | none => none
        | some (rest, p') => some (⟨w, cs⟩ :: rest, p')

/-- The coefficient chunk comprehension:
`[fw.read(cd.size // cd.count) for _ in range(cd.count)]`. -/
def readChunks (s : ByteSeq) (c : Nat) : Nat → Nat → List (List Nat) × Nat
  | 0, p => ([], p)
  | n + 1, p =>
    ((readRaw s p c).1 :: (readChunks s c n (readRaw s p c).2).1,
     (readChunks s c n (readRaw s p c).2).2)

/-- The decoded body of a handled (`vendor_type == 0`) coefficient block. -/
structure CoeffBody where
  count : Nat
  ctlHdr : SndSocFwControlHeader
  enumCtl : Option SndSocFwEnumControl
  nested : SndSocFwHeader
  data : SndSocFileCoeffData
  chunks : List (List Nat)
  deriving DecidableEq, Repr

/-- The control-kind branch inside the handled coefficient block: an enum
control is decoded only when `id_info` is `CONTROL_ENUM`,
`CONTROL_ENUM_EXT` or `CONTROL_ENUM_VALUE`; any other kind is merely
logged. -/
def decodeCoeffCtl (s : ByteSeq) (ch : SndSocFwControlHeader) (p : Nat) :
    Option (Option SndSocFwEnumControl × Nat) :=
  if ch.id_info ∈ coeffEnumCodes then
    match decodeEnumControl s p with
    | none => none
    | some (ec, p') => some (some ec, p')
  else some (none, p)

/-- The handled coefficient branch, continued: after the count and control
header (with its optional enum control via `decodeCoeffCtl`), a nested
`SndSocFwHeader` from which `next_offset` is recomputed, a
`SndSocFileCoeffData` descriptor, and `count` chunks of `size // count` raw
bytes.  Returns the body, the final position, and the recomputed
`next_offset`. -/
def decodeCoeffBody (s : ByteSeq) (p : Nat) : Option (CoeffBody × Nat × Nat) :=
  match decodeKControl s p with
  | none => none
  | some (k, p1) =>
    match decodeControlHeader s p1 with
    | none => none
    | some (ch, p2) =>
      match decodeCoeffCtl s ch p2 with
      | none => none
      | some (ecOpt, p3) =>
        match decodeFwHeader s p3 with
        | none => none
        | some (nh, p4) =>
          match decodeCoeffData s p4 with
          | none => none
          | some (cd, p5) =>
            some (⟨k.count, ch, ecOpt, nh, cd,
                   (readChunks s (cd.size / cd.count) cd.count p5).1⟩,
                  (readChunks s (cd.size / cd.count) cd.count p5).2, p4 + nh.size)

/-- The decoded body of a vendor firmware block: the `AbeFirmwareHeader`
and its four raw memory segments. -/
structure AbeFw where
  hdr : AbeFirmwareHeader
  pmem : List Nat
  cmem : List Nat
  dmem : List Nat
  smem : List Nat
  deriving DecidableEq, Repr

/-- The vendor firmware branch: a 20-byte header then four raw reads of the
declared sizes, in order pmem, cmem, dmem, smem. -/
def decodeVendorFw (s : ByteSeq) (p : Nat) : Option (AbeFw × Nat) :=
  match decodeAbeFirmwareHeader s p with
  | none => none
  | some (abe, p1) =>
    match readRaw s p1 abe.pmem_size with
    | (pm, p2) =>
      match readRaw s p2 abe.cmem_size with
      | (cm, p3) =>
        match readRaw s p3 abe.dmem_size with
        | (dm, p4) =>
          match readRaw s p4 abe.smem_size with
          | (sm, p') => some (⟨abe, pm, cm, dm, sm⟩, p')

/-- The body produced by the tag dispatch for one block. -/
inductive BlockBody where
  | mixer (count : Nat) (children : List MixerChild)
  | graph (count : Nat) (routes : List SndSocFwDapmGraphElem)
  | widgets (count : Nat) (ws : List WidgetEntry)
  | dai
  | coeff (body : CoeffBody)
  | coeffUnsup
  | fw (body : AbeFw)
  | config (blob : List Nat)
  | unsupTag
  deriving DecidableEq, Repr

/-- The tag dispatch of the main loop, from the point just after the block
header was decoded: on the block's `type` it decodes the matching body.
The DAI-link tag (4), coefficient blocks with `vendor_type != 0`, and the
remaining vendor tags only log and read nothing.  Returns the body, the
final cursor position, and the `next_offset` the trailing assert compares
against (recomputed from the nested header for handled coefficient
blocks, `fw.tell() + hdr.size` for every other tag). -/
def dispatchBody (s : ByteSeq) (hdr : SndSocFwHeader) (p : Nat) :
    Option (BlockBody × Nat × Nat) :=
  if hdr.type = 1 then
    match decodeKControl s p with
    | none => none
    | some (k, p1) =>
      match decodeMixerChildren s k.count p1 with
      | none => none
      | some (cs, p') => some (.mixer k.count cs, p', p + hdr.size)
  else if hdr.type = 2 then
    match decodeKControl s p with
    | none => none
    | some (k, p1) =>
      match decodeGraphElems s k.count p1 with
      | none => none
      | some (rs, p') => some (.graph k.count rs, p', p + hdr.size)
  else if hdr.type = 3 then
    match decodeKControl s p with
    | none => none
    | some (k, p1) =>
      match decodeWidgets s k.count p1 with
      | none => none
      | some (ws, p') => some (.widgets k.count ws, p', p + hdr.size)
  else if hdr.type = 4 then
    some (.dai, p, p + hdr.size)
  else if hdr.type = 5 then
    if hdr.vendor_type = 0 then
      match decodeCoeffBody s p with
      | none => none
      | some (b, p', no) => some (.coeff b, p', no)
    else some (.coeffUnsup, p, p + hdr.size)
  else if hdr.type = 1000 then
    match decodeVendorFw s p with
    | none => none
    | some (b, p') => some (.fw b, p', p + hdr.size)
  else if hdr.type = 1001 then
    some (.config (readRaw s p hdr.size).1, (readRaw s p hdr.size).2, p + hdr.size)
  else
    some (.unsupTag, p, p + hdr.size)

/-- Decode error of the main loop.  `decodeFail` covers Python's
`struct.error` on truncated records and `ValueError` from `IntEnum`
construction; `unboundLocal` is the `UnboundLocalError` raised when `hdr`
is referenced without ever having been assigned (first block with
`abi != 1`); `assertFailed` is the `assert fw.tell() == next_offset`
framing check. -/
inductive DecodeErr where
  | decodeFail
  | unboundLocal
  | assertFailed
  deriving DecidableEq, Repr

/-- One element appended to `fw_list`: the header whose metadata was
recorded plus the decoded body. -/
structure Entry where
  hdr : SndSocFwHeader
  body : BlockBody
  deriving DecidableEq, Repr

/-- Result of one iteration of the `while fw.peek(1)` loop. -/
inductive StepResult where
  | done
  | next (hdr : SndSocFwHeader) (e : Entry) (p : Nat)
  | fail (err : DecodeErr)
  deriving DecidableEq, Repr

/-- One iteration of the main loop: stop at end of stream; peek the ABI
version; decode the header only when `abi == 1` (otherwise just log,
leaving the `hdr` variable — and the cursor — untouched); then record the
entry, dispatch the body, and run the trailing framing assert. -/
def decodeStep (s : ByteSeq) (p : Nat) (hdrVar : Option SndSocFwHeader) :
    StepResult :=
  if s.length ≤ p then .done
  else
    match abiVersion s p with
    | none => .fail .decodeFail
    | some abi =>
      let hp : Option (Option SndSocFwHeader × Nat) :=
        if abi = 1 then
          match decodeFwHeader s p with
          | none => none
          | some (h, p1) => some (some h, p1)
        else some (hdrVar, p)
      match hp with
      | none => .fail .decodeFail
      | some (none, _) => .fail .unboundLocal
      | some (some hdr, p1) =>
        match dispatchBody s hdr p1 with
        | none => .fail .decodeFail
        | some (b, p', nextOff) =>
          if p' = nextOff then .next hdr ⟨hdr, b⟩ p'
          else .fail .assertFailed

/-- The `while fw.peek(1)` loop, with fuel; `none` means the fuel ran out
before the loop finished. -/
def decodeLoop (s : ByteSeq) : Nat → Nat → Option SndSocFwHeader →
    List Entry → Option (Except DecodeErr (List Entry))
  | 0, _, _, _ => none
  | fuel + 1, p, hdrVar, acc =>
    match decodeStep s p hdrVar with
    | .done => some (.ok acc.reverse)
    | .fail e => some (.error e)
    | .next hdr e p' => decodeLoop s fuel p' (some hdr) (e :: acc)

/-- Decode a whole container from position 0, the `hdr` variable initially
unassigned. -/
def decodeAll (s : ByteSeq) (fuel : Nat) : Option (Except DecodeErr (List Entry)) :=
  decodeLoop s fuel 0 none []

/-! Structural byte sizes: how many bytes each decoded value accounts for. -/

/-- Bytes consumed by the optional trailing TLV of a scalar mixer child. -/
def tlvSize : Option (SndSocFwControlTlv × List Nat) → Nat
  | none => 0
  | some (_, v) => 8 + v.length

/-- Bytes consumed decoding one mixer-block child (44-byte header plus its
branch's body). -/
def mixerChildSize : MixerChild → Nat
  | .scalar _ _ t => 76 + tlvSize t
  | .enum _ _ => 1096
  | .unsup _ => 44

/-- Bytes consumed decoding one widget control (44-byte header plus its
branch's body). -/
def widgetChildSize : WidgetChild → Nat
  | .scalar _ _ => 76
  | .enum _ _ => 1096
  | .unsup _ => 44

/-- Bytes consumed decoding one widget entry: the 88-byte widget record
plus its attached controls. -/
def widgetEntrySize (w : WidgetEntry) : Nat :=
  88 + (w.controls.map widgetChildSize).sum

/-- Bytes consumed by the optional enum control of a coefficient block. -/
def coeffEnumSize : Option SndSocFwEnumControl → Nat
  | none => 0
  | some _ => 1052

/-- Structural byte size of a decoded body, counting exactly the record
layout sizes of everything the body holds (for handled coefficient bodies
the relevant region is accounted separately, see `wfFraming`). -/
def bodyBytes : BlockBody → Nat
  | .mixer _ cs => 4 + (cs.map mixerChildSize).sum
  | .graph _ rs => 4 + 96 * rs.length
  | .widgets _ ws => 4 + (ws.map widgetEntrySize).sum
  | .dai => 0
  | .coeff _ => 0
  | .coeffUnsup => 0
  | .fw b => 20 + b.pmem.length + b.cmem.length + b.dmem.length + b.smem.length
  | .config blob => blob.length
  | .unsupTag => 0

/-- The block is well framed: its declared size equals the structural byte
size of its decoded body.  For handled coefficient blocks the declared size
the assert compares against is the nested header's, and the region it must
cover is the descriptor plus its chunks, because the dispatch loop
recomputes `next_offset` from the nested header. -/
def wfFraming (hdr : SndSocFwHeader) : BlockBody → Prop
  | .coeff cb => cb.nested.size = 12 + (cb.chunks.map List.length).sum
  | b => hdr.size = bodyBytes b

/-- The body was produced entirely by fully specified tag handlers: a Mixer
body none of whose controls fell to the invalid-control branch, a DAPM
graph body, a DAPM widget body none of whose controls fell to the
invalid-control branch, a handled coefficient body, a vendor firmware body,
or a vendor config body. -/
def fullySpecified : BlockBody → Prop
  | .mixer _ cs => ∀ c ∈ cs, c.isUnsup = false
  | .widgets _ ws => ∀ w ∈ ws, ∀ c ∈ w.controls, c.isUnsup = false
  | .graph _ _ => True
  | .coeff _ => True
  | .fw _ => True
  | .config _ => True
  | .dai => False
  | .coeffUnsup => False
  | .unsupTag => False

/-! Concrete inputs used to witness or refute the claims. -/

/-- An all-zero mixer control record. -/
def mc0 : SndSocFwMixerControl := ⟨0, 0, 0, 0, 0, 0, 0, 0⟩

/-- A DAPM graph block header of declared size 4 (an empty route table). -/
def c1Hdr : SndSocFwHeader := ⟨[65, 83, 111, 67], 1, 2, 0, 0, 4⟩

/-- Body bytes of an empty DAPM graph block: just the 32-bit zero count. -/
def c1Stream : ByteSeq := [0, 0, 0, 0]

/-- A 44-byte control header whose `index` low byte is 5, a code outside
the `SocType` enumeration. -/
def c2xStream : ByteSeq := List.replicate 32 0 ++ [5, 0, 0, 0] ++ List.replicate 8 0

/-- A 24-byte block header with magic bytes `XXXX`. -/
def c3xStream1 : ByteSeq :=
  [88, 88, 88, 88] ++ [1, 0, 0, 0] ++ [4, 0, 0, 0] ++ List.replicate 12 0

/-- A 24-byte block header with magic bytes `YYYY`. -/
def c3xStream2 : ByteSeq :=
  [89, 89, 89, 89] ++ [1, 0, 0, 0] ++ [4, 0, 0, 0] ++ List.replicate 12 0

/-- A 24-byte block header with magic bytes `ZZZZ`. -/
def c3wStream : ByteSeq :=
  [90, 90, 90, 90] ++ [1, 0, 0, 0] ++ [4, 0, 0, 0] ++ List.replicate 12 0

/-- The header of the first (valid) block of `c4Stream`: a vendor config
block of 24 payload bytes. -/
def c4Hdr1 : SndSocFwHeader := ⟨[65, 66, 67, 68], 1, 1001, 0, 0, 24⟩

/-- A 24-byte block header claiming `abi_version = 2`. -/
def c4Block2 : ByteSeq :=
  [65, 66, 67, 68] ++ [2, 0, 0, 0] ++ [233, 3, 0, 0] ++ List.replicate 12 0

/-- A container with one valid vendor config block followed by a block
whose header declares `abi_version = 2`. -/
def c4Stream : ByteSeq :=
  ([65, 66, 67, 68] ++ [1, 0, 0, 0] ++ [233, 3, 0, 0] ++ [0, 0, 0, 0]
    ++ [0, 0, 0, 0] ++ [24, 0, 0, 0]) ++ List.replicate 24 7 ++ c4Block2

/-- A DAI-link block (tag 4) of declared size 4, followed by its 4 payload
bytes. -/
def c5Stream : ByteSeq :=
  ([65, 66, 67, 68] ++ [1, 0, 0, 0] ++ [4, 0, 0, 0] ++ [0, 0, 0, 0]
    ++ [0, 0, 0, 0] ++ [4, 0, 0, 0]) ++ [9, 9, 9, 9]

/-- A block header carrying tag value 6, which is not a `FwType` member. -/
def c5xStream : ByteSeq :=
  [65, 66, 67, 68] ++ [1, 0, 0, 0] ++ [6, 0, 0, 0] ++ List.replicate 12 0

/-- A handled coefficient body whose descriptor declares 3 chunks of 10
bytes total: count, a code-0 control header, a nested header of size 21,
the descriptor, 10 data bytes and a trailing byte. -/
def c6xStream : ByteSeq :=
  [1, 0, 0, 0] ++ List.replicate 44 0
  ++ ([65, 66, 67, 68] ++ [1, 0, 0, 0] ++ [5, 0, 0, 0] ++ [0, 0, 0, 0]
    ++ [0, 0, 0, 0] ++ [21, 0, 0, 0])
  ++ ([3, 0, 0, 0] ++ [10, 0, 0, 0] ++ [7, 0, 0, 0])
  ++ [1, 2, 3, 4, 5, 6, 7, 8, 9, 10] ++ [99]

/-- A handled coefficient body whose descriptor declares 2 chunks of 6
bytes total (an exactly divisible case), with a trailing byte. -/
def c6wStream : ByteSeq :=
  [1, 0, 0, 0] ++ List.replicate 44 0
  ++ ([65, 66, 67, 68] ++ [1, 0, 0, 0] ++ [5, 0, 0, 0] ++ [0, 0, 0, 0]
    ++ [0, 0, 0, 0] ++ [18, 0, 0, 0])
  ++ ([2, 0, 0, 0] ++ [6, 0, 0, 0] ++ [5, 0, 0, 0])
  ++ [1, 2, 3, 4, 5, 6] ++ [0]

/-- The coefficient body decoded from `c6wStream`. -/
def c6wBody : CoeffBody :=
  ⟨1, ⟨[], 0, 0, 0, 0⟩, none, ⟨[65, 66, 67, 68], 1, 5, 0, 0, 18⟩, ⟨2, 6, 5⟩,
   [[1, 2, 3], [4, 5, 6]]⟩

/-- Widget control data: a control header with code 68 (`DAPM_PIN`)
followed by 156 further zero bytes — room enough for two full scalar
iterations, had the decoder looped. -/
def c7xStream : ByteSeq :=
  (List.replicate 32 0 ++ [68, 0, 0, 0] ++ [0, 0, 0, 0] ++ [0, 0, 0, 0])
  ++ List.replicate 156 0

/-- The control header decoded at the head of `c7xStream`. -/
def c7xHdr : SndSocFwControlHeader := ⟨[], 68, 0, 0, 68⟩

/-- Widget control data for two scalar iterations with code 64
(`DAPM_VOLSW`): header, mixer record, header, mixer record. -/
def c7wStream : ByteSeq :=
  (List.replicate 32 0 ++ [64, 0, 0, 0] ++ [0, 0, 0, 0] ++ [0, 0, 0, 0])
  ++ List.replicate 32 0
  ++ (List.replicate 32 0 ++ [64, 0, 0, 0] ++ [0, 0, 0, 0] ++ [0, 0, 0, 0])
  ++ List.replicate 32 0

/-- The control header decoded at the head of `c7wStream`. -/
def c7wHdr : SndSocFwControlHeader := ⟨[], 64, 0, 0, 64⟩

/-- A mixer block body with count 2 and two scalar controls (codes 1 and
68, both with `tlv_size = 0`), plus one trailing byte. -/
def c8Stream : ByteSeq :=
  [2, 0, 0, 0]
  ++ (List.replicate 32 0 ++ [1, 0, 0, 0] ++ [0, 0, 0, 0] ++ [0, 0, 0, 0])
  ++ List.replicate 32 0
  ++ (List.replicate 32 0 ++ [68, 0, 0, 0] ++ [0, 0, 0, 0] ++ [0, 0, 0, 0])
  ++ List.replicate 32 0 ++ [0]

/-- The mixer block header framing `c8Stream` (declared size 156). -/
def c8Hdr : SndSocFwHeader := ⟨[65, 83, 111, 67], 1, 1, 0, 0, 156⟩

/-- The children decoded from `c8Stream`. -/
def c8Cs : List MixerChild :=
  [MixerChild.scalar ⟨[], 1, 0, 0, 1⟩ mc0 none,
   MixerChild.scalar ⟨[], 68, 0, 0, 68⟩ mc0 none]

/-- An enumerated control record whose first two text slots both hold the
label `A` (byte 65), with slot values 0 and 1. -/
def c9xStream : ByteSeq :=
  List.replicate 28 0 ++ ([65] ++ List.replicate 31 0)
  ++ ([65] ++ List.replicate 31 0) ++ List.replicate 448 0
  ++ ([0, 0, 0, 0] ++ [1, 0, 0, 0]) ++ List.replicate 504 0

/-- The control decoded from `c9xStream`: the duplicate label collapsed to
one mapping entry holding the second slot's value. -/
def c9xEc : SndSocFwEnumControl :=
  ⟨0, 0, 0, 0, 0, 0, 0, [65] :: [65] :: List.replicate 14 [],
   0 :: 1 :: List.replicate 126 0, [([65], 1)]⟩

/-- An enumerated control record with labels `Off` and `On` in slots 0 and
1 and values 0 and 1 (all other slots empty). -/
def c9wStream : ByteSeq :=
  List.replicate 28 0 ++ ([79, 102, 102] ++ List.replicate 29 0)
  ++ ([79, 110] ++ List.replicate 30 0) ++ List.replicate 448 0
  ++ ([0, 0, 0, 0] ++ [1, 0, 0, 0]) ++ List.replicate 504 0

/-- The control decoded from `c9wStream`. -/
def c9wEc : SndSocFwEnumControl :=
  ⟨0, 0, 0, 0, 0, 0, 0, [79, 102, 102] :: [79, 110] :: List.replicate 14 [],
   0 :: 1 :: List.replicate 126 0, [([79, 102, 102], 0), ([79, 110], 1)]⟩

/-- An all-zero 1052-byte enumerated control record. -/
def c10Stream : ByteSeq := List.replicate 1052 0

/-- The control decoded from `c10Stream`. -/
def c10Ec : SndSocFwEnumControl :=
  ⟨0, 0, 0, 0, 0, 0, 0, List.replicate 16 [], List.replicate 128 0, []⟩

/-! Basic facts about the read primitives. -/

theorem readExact_some {s : ByteSeq} {p n : Nat} {b : List Nat} {p' : Nat}
    (h : readExact s p n = some (b, p')) :
    p' = p + n ∧ p + n ≤ s.length ∧ b = (s.drop p).take n ∧ b.length = n := by
  unfold readExact at h
  split at h
  next hle =>
    simp only [Option.some.injEq, Prod.mk.injEq] at h
    obtain ⟨hb, hp⟩ := h
    subst hb
    subst hp
    refine ⟨rfl, hle, rfl, ?_⟩
    simp only [List.length_take, List.length_drop]
    omega
  next => exact absurd h (by simp)

theorem readRaw_snd (s : ByteSeq) (p n : Nat) :
    (readRaw s p n).2 = p + (readRaw s p n).1.length := rfl

theorem readRaw_spec (s : ByteSeq) (p n : Nat) (hp : p ≤ s.length) :
    (readRaw s p n).2 = p + (readRaw s p n).1.length ∧
    (readRaw s p n).2 ≤ s.length ∧
    (readRaw s p n).1.length ≤ n ∧
    ((readRaw s p n).1.length < n → (readRaw s p n).2 = s.length) ∧
    (p + n ≤ s.length → (readRaw s p n).1.length = n) := by
  refine ⟨rfl, ?_⟩
  unfold readRaw
  dsimp only
  simp only [List.length_take, List.length_drop]
  omega

theorem readRaw_full {s : ByteSeq} {p n : Nat} (h : p + n ≤ s.length) :
    (readRaw s p n).1.length = n ∧ (readRaw s p n).2 = p + n := by
  unfold readRaw
  dsimp only
  simp only [List.length_take, List.length_drop]
  omega

/-! Success of each fixed-record decoder pins down the cursor movement. -/

theorem decodeKControl_some {s : ByteSeq} {p : Nat} {k : SndSocFwKControl}
    {p' : Nat} (h : decodeKControl s p = some (k, p')) :
    p' = p + 4 ∧ p + 4 ≤ s.length := by
  unfold decodeKControl at h
  split at h
  next => exact absurd h (by simp)
  next b p2 hre =>
    simp only [Option.some.injEq, Prod.mk.injEq] at h
    obtain ⟨e1, e2, _, _⟩ := readExact_some hre
    omega

theorem decodeControlTlv_some {s : ByteSeq} {p : Nat} {t : SndSocFwControlTlv}
    {p' : Nat} (h : decodeControlTlv s p = some (t, p')) :
    p' = p + 8 ∧ p + 8 ≤ s.length := by
  unfold decodeControlTlv at h
  split at h
  next => exact absurd h (by simp)
  next b p2 hre =>
    simp only [Option.some.injEq, Prod.mk.injEq] at h
    obtain ⟨e1, e2, _, _⟩ := readExact_some hre
    omega

theorem decodeControlHeader_some {s : ByteSeq} {p : Nat}
    {hd : SndSocFwControlHeader} {p' : Nat}
    (h : decodeControlHeader s p = some (hd, p')) :
    p' = p + 44 ∧ p + 44 ≤ s.length ∧ hd.id_info = hd.index % 256 ∧
      hd.id_info ∈ socTypeCodes := by
  unfold decodeControlHeader at h
  split at h
  next => exact absurd h (by simp)
  next b p2 hre =>
    obtain ⟨e1, e2, _, _⟩ := readExact_some hre
    split at h
    next hmem =>
      simp only [Option.some.injEq, Prod.mk.injEq] at h
      obtain ⟨hh, hp⟩ := h
      subst hh
      subst hp
      exact ⟨e1, e2, rfl, hmem⟩
    next => exact absurd h (by simp)

theorem decodeMixerControl_some {s : ByteSeq} {p : Nat}
    {mc : SndSocFwMixerControl} {p' : Nat}
    (h : decodeMixerControl s p = some (mc, p')) :
    p' = p + 32 ∧ p + 32 ≤ s.length := by
  unfold decodeMixerControl at h
  split at h
  next => exact absurd h (by simp)
  next b p2 hre =>
    simp only [Option.some.injEq, Prod.mk.injEq] at h
    obtain ⟨e1, e2, _, _⟩ := readExact_some hre
    omega

theorem decodeEnumControl_some {s : ByteSeq} {p : Nat}
    {ec : SndSocFwEnumControl} {p' : Nat}
    (h : decodeEnumControl s p = some (ec, p')) :
    p' = p + 1052 ∧ p + 1052 ≤ s.length ∧
    ec.texts = (List.range 16).map
      (fun i => trimNul (((((s.drop p).take 1052).drop 28).drop (32 * i)).take 32)) ∧
    ec.vals = (List.range 128).map
      (fun i => le32 ((((s.drop p).take 1052).drop 28).drop (512 + 4 * i))) ∧
    ec.values = buildEnumDict ec.texts (ec.vals.take 16) [] := by
  unfold decodeEnumControl at h
  split at h
  next => exact absurd h (by simp)
  next b p2 hre =>
    obtain ⟨e1, e2, e3, _⟩ := readExact_some hre
    simp only [Option.some.injEq, Prod.mk.injEq] at h
    obtain ⟨hh, hp⟩ := h
    subst hh
    subst hp
    subst e3
    exact ⟨e1, e2, rfl, rfl, rfl⟩

theorem decodeDapmGraphElem_some {s : ByteSeq} {p : Nat}
    {e : SndSocFwDapmGraphElem} {p' : Nat}
    (h : decodeDapmGraphElem s p = some (e, p')) :
    p' = p + 96 ∧ p + 96 ≤ s.length := by
  unfold decodeDapmGraphElem at h
  split at h
  next => exact absurd h (by simp)
  next b p2 hre =>
    simp only [Option.some.injEq, Prod.mk.injEq] at h
    obtain ⟨e1, e2, _, _⟩ := readExact_some hre
    omega

theorem decodeDapmWidget_some {s : ByteSeq} {p : Nat}
    {w : SndSocFwDapmWidget} {p' : Nat}
    (h : decodeDapmWidget s p = some (w, p')) :
    p' = p + 88 ∧ p + 88 ≤ s.length := by
  unfold decodeDapmWidget at h
  split at h
  next => exact absurd h (by simp)
  next b p2 hre =>
    simp only [Option.some.injEq, Prod.mk.injEq] at h
    obtain ⟨e1, e2, _, _⟩ := readExact_some hre
    omega

theorem decodeCoeffData_some {s : ByteSeq} {p : Nat}
    {cd : SndSocFileCoeffData} {p' : Nat}
    (h : decodeCoeffData s p = some (cd, p')) :
    p' = p + 12 ∧ p + 12 ≤ s.length := by
  unfold decodeCoeffData at h
  split at h
  next => exact absurd h (by simp)
  next b p2 hre =>
    simp only [Option.some.injEq, Prod.mk.injEq] at h
    obtain ⟨e1, e2, _, _⟩ := readExact_some hre
    omega

theorem decodeAbeFirmwareHeader_some {s : ByteSeq} {p : Nat}
    {a : AbeFirmwareHeader} {p' : Nat}
    (h : decodeAbeFirmwareHeader s p = some (a, p')) :
    p' = p + 20 ∧ p + 20 ≤ s.length := by
  unfold decodeAbeFirmwareHeader at h
  split at h
  next => exact absurd h (by simp)
  next b p2 hre =>
    simp only [Option.some.injEq, Prod.mk.injEq] at h
    obtain ⟨e1, e2, _, _⟩ := readExact_some hre
    omega

theorem decodeFwHeader_some {s : ByteSeq} {p : Nat} {hd : SndSocFwHeader}
    {p' : Nat} (h : decodeFwHeader s p = some (hd, p')) :
    p' = p + 24 ∧ p + 24 ≤ s.length ∧ hd.type ∈ fwTypeCodes := by
  unfold decodeFwHeader at h
  split at h
  next => exact absurd h (by simp)
  next b p2 hre =>
    obtain ⟨e1, e2, _, _⟩ := readExact_some hre
    split at h
    next hmem =>
      simp only [Option.some.injEq, Prod.mk.injEq] at h
      obtain ⟨hh, hp⟩ := h
      subst hh
      subst hp
      exact ⟨e1, e2, hmem⟩
    next => exact absurd h (by simp)

/-- Sum of a constant-valued map. -/
theorem sum_map_const {α : Type} (f : α → Nat) (c : Nat) :
    ∀ l : List α, (∀ x ∈ l, f x = c) → (l.map f).sum = c * l.length := by
  intro l
  induction l with
  | nil => intro _; simp
  | cons a l ih =>
    intro hall
    simp only [List.map_cons, List.sum_cons, List.length_cons]
    rw [hall a (List.mem_cons_self a l), ih (fun x hx => hall x (List.mem_cons_of_mem a hx))]
    ring

/-! Consumption lemmas for the loop-shaped body decoders. -/

theorem decodeGraphElems_spec (s : ByteSeq) :
    ∀ n p rs p', p ≤ s.length → decodeGraphElems s n p = some (rs, p') →
      rs.length = n ∧ p' = p + 96 * n ∧ p' ≤ s.length := by
  intro n
  induction n with
  | zero =>
    intro p rs p' hp h
    unfold decodeGraphElems at h
    simp only [Option.some.injEq, Prod.mk.injEq] at h
    obtain ⟨hrs, hpp⟩ := h
    subst hrs
    subst hpp
    simp
    omega
  | succ n ih =>
    intro p rs p' hp h
    unfold decodeGraphElems at h
    split at h
    next => exact absurd h (by simp)
    next e p1 he =>
      split at h
      next => exact absurd h (by simp)
      next rest p2 hrest =>
        simp only [Option.some.injEq, Prod.mk.injEq] at h
        obtain ⟨hrs, hpp⟩ := h
        subst hrs
        subst hpp
        obtain ⟨e1, e2⟩ := decodeDapmGraphElem_some he
        obtain ⟨f1, f2, f3⟩ := ih p1 rest p2 (by omega) hrest
        refine ⟨by simp [f1], by omega, f3⟩

theorem decodeWidgetScalarLoop_spec (s : ByteSeq) :
    ∀ n p cs p', p ≤ s.length → decodeWidgetScalarLoop s n p = some (cs, p') →
      cs.length = n ∧ p' = p + 76 * n ∧ p' ≤ s.length ∧
      ∀ c ∈ cs, c.isScalar = true := by
  intro n
  induction n with
  | zero =>
    intro p cs p' hp h
    unfold decodeWidgetScalarLoop at h
    simp only [Option.some.injEq, Prod.mk.injEq] at h
    obtain ⟨hcs, hpp⟩ := h
    subst hcs
    subst hpp
    simp
    omega
  | succ n ih =>
    intro p cs p' hp h
    unfold decodeWidgetScalarLoop at h
    split at h
    next => exact absurd h (by simp)
    next hd p1 hh =>
      split at h
      next => exact absurd h (by simp)
      next mc p2 hmc =>
        split at h
        next => exact absurd h (by simp)
        next rest p3 hrest =>
          simp only [Option.some.injEq, Prod.mk.injEq] at h
          obtain ⟨hcs, hpp⟩ := h
          subst hcs
          subst hpp
          obtain ⟨e1, e2, _, _⟩ := decodeControlHeader_some hh
          obtain ⟨f1, f2⟩ := decodeMixerControl_some hmc
          obtain ⟨g1, g2, g3, g4⟩ := ih p2 rest p3 (by omega) hrest
          refine ⟨by simp [g1], by omega, g3, ?_⟩
          intro c hc
          rcases List.mem_cons.mp hc with hc | hc
          · subst hc; rfl
          · exact g4 c hc

theorem decodeWidgetControls_spec (s : ByteSeq) (count p : Nat)
    (cs : List WidgetChild) (p' : Nat) (hp : p ≤ s.length)
    (h : decodeWidgetControls s count p = some (cs, p')) :
    p' = p + (cs.map widgetChildSize).sum ∧ p' ≤ s.length := by
  unfold decodeWidgetControls at h
  split at h
  next =>
    simp only [Option.some.injEq, Prod.mk.injEq] at h
    obtain ⟨hcs, hpp⟩ := h
    subst hcs
    subst hpp
    simpa using hp
  next =>
    split at h
    next => exact absurd h (by simp)
    next hd p1 hh =>
      obtain ⟨e1, e2, _, _⟩ := decodeControlHeader_some hh
      split at h
      next =>
        split at h
        next => exact absurd h (by simp)
        next mc p2 hmc =>
          split at h
          next => exact absurd h (by simp)
          next rest p3 hrest =>
            simp only [Option.some.injEq, Prod.mk.injEq] at h
            obtain ⟨hcs, hpp⟩ := h
            subst hcs
            subst hpp
            obtain ⟨f1, f2⟩ := decodeMixerControl_some hmc
            obtain ⟨g1, g2, g3, g4⟩ :=
              decodeWidgetScalarLoop_spec s (count - 1) p2 rest p3 (by omega) hrest
            have hsum : (rest.map widgetChildSize).sum = 76 * rest.length := by
              refine sum_map_const widgetChildSize 76 rest ?_
              intro c hc
              have := g4 c hc
              cases c with
              | scalar hd mc => rfl
              | enum hd ec => exact absurd this (by simp [WidgetChild.isScalar])
              | unsup hd => exact absurd this (by simp [WidgetChild.isScalar])
            constructor
            · simp only [List.map_cons, List.sum_cons, widgetChildSize, hsum]
              omega
            · exact g3
      next =>
        split at h
        next =>
          split at h
          next => exact absurd h (by simp)
          next ec p2 hec =>
            simp only [Option.some.injEq, Prod.mk.injEq] at h
            obtain ⟨hcs, hpp⟩ := h
            subst hcs
            subst hpp
            obtain ⟨f1, f2, _, _, _⟩ := decodeEnumControl_some hec
            constructor
            · simp only [List.map_cons, List.map_nil, List.sum_cons, List.sum_nil,
                widgetChildSize]
              omega
            · omega
        next =>
          simp only [Option.some.injEq, Prod.mk.injEq] at h
          obtain ⟨hcs, hpp⟩ := h
          subst hcs
          subst hpp
          constructor
          · simp only [List.map_cons, List.map_nil, List.sum_cons, List.sum_nil,
              widgetChildSize]
            omega
          · omega

theorem decodeWidgets_spec (s : ByteSeq) :
    ∀ n p ws p', p ≤ s.length → decodeWidgets s n p = some (ws, p') →
      ws.length = n ∧ p' = p + (ws.map widgetEntrySize).sum ∧ p' ≤ s.length := by
  intro n
  induction n with
  | zero =>
    intro p ws p' hp h
    unfold decodeWidgets at h
    simp only [Option.some.injEq, Prod.mk.injEq] at h
    obtain ⟨hws, hpp⟩ := h
    subst hws
    subst hpp
    simp
    omega
  | succ n ih =>
    intro p ws p' hp h
    unfold decodeWidgets at h
    split at h
    next => exact absurd h (by simp)
    next w p1 hw =>
      split at h
      next => exact absurd h (by simp)
      next cs p2 hcs =>
        split at h
        next => exact absurd h (by simp)
        next rest p3 hrest =>
          simp only [Option.some.injEq, Prod.mk.injEq] at h
          obtain ⟨hws, hpp⟩ := h
          subst hws
          subst hpp
          obtain ⟨e1, e2⟩ := decodeDapmWidget_some hw
          obtain ⟨f1, f2⟩ := decodeWidgetControls_spec s w.kcontrol_count p1 cs p2
            (by omega) hcs
          obtain ⟨g1, g2, g3⟩ := ih p2 rest p3 (by omega) hrest
          refine ⟨by simp [g1], ?_, g3⟩
          simp only [List.map_cons, List.sum_cons, widgetEntrySize]
          omega

theorem decodeMixerChildren_spec (s : ByteSeq) :
    ∀ n p cs p', p ≤ s.length → decodeMixerChildren s n p = some (cs, p') →
      cs.length = n ∧ p' = p + (cs.map mixerChildSize).sum ∧ p' ≤ s.length ∧
      (p' < s.length → ∀ c ∈ cs, ∀ hd mc t v,
          c = MixerChild.scalar hd mc (some (t, v)) → v.length = t.length) := by
  intro n
  induction n with
  | zero =>
    intro p cs p' hp h
    unfold decodeMixerChildren at h
    simp only [Option.some.injEq, Prod.mk.injEq] at h
    obtain ⟨hcs, hpp⟩ := h
    subst hcs
    subst hpp
    refine ⟨rfl, by simp, hp, ?_⟩
    intro _ c hc
    exact absurd hc (by simp)
  | succ n ih =>
    intro p cs p' hp h
    unfold decodeMixerChildren at h
    split at h
    next => exact absurd h (by simp)
    next hdr p1 hh =>
      obtain ⟨e1, e2, _, _⟩ := decodeControlHeader_some hh
      split at h
      next =>
        split at h
        next => exact absurd h (by simp)
        next mc p2 hmc =>
          obtain ⟨f1, f2⟩ := decodeMixerControl_some hmc
          split at h
          next =>
            split at h
            next => exact absurd h (by simp)
            next tlv p3 htlv =>
              obtain ⟨t1, t2⟩ := decodeControlTlv_some htlv
              obtain ⟨r_eq, r_le, r_len_le, r_short, _⟩ :=
                readRaw_spec s p3 tlv.length (by omega)
              split at h
              next => exact absurd h (by simp)
              next rest pr hrest =>
                simp only [Option.some.injEq, Prod.mk.injEq] at h
                obtain ⟨hcs, hpp⟩ := h
                subst hcs
                subst hpp
                obtain ⟨g1, g2, g3, g4⟩ := ih (readRaw s p3 tlv.length).2 rest pr
                  r_le hrest
                have hfull : pr < s.length →
                    (readRaw s p3 tlv.length).1.length = tlv.length := by
                  intro hlt
                  by_cases hcase :
                      (readRaw s p3 tlv.length).1.length < tlv.length
                  · have := r_short hcase
                    omega
                  · omega
                refine ⟨by simp [g1], ?_, g3, ?_⟩
                · simp only [List.map_cons, List.sum_cons, mixerChildSize, tlvSize]
                  omega
                · intro hlt c hc hd mc2 t v hceq
                  rcases List.mem_cons.mp hc with hc | hc
                  · subst hc
                    simp only [MixerChild.scalar.injEq, Option.some.injEq,
                      Prod.mk.injEq] at hceq
                    obtain ⟨_, _, htv, hvv⟩ := hceq
                    rw [← hvv, ← htv]
                    exact hfull hlt
                  · exact g4 hlt c hc hd mc2 t v hceq
          next =>
            split at h
            next => exact absurd h (by simp)
            next rest pr hrest =>
              simp only [Option.some.injEq, Prod.mk.injEq] at h
              obtain ⟨hcs, hpp⟩ := h
              subst hcs
              subst hpp
              obtain ⟨g1, g2, g3, g4⟩ := ih p2 rest pr (by omega) hrest
              refine ⟨by simp [g1], ?_, g3, ?_⟩
              · simp only [List.map_cons, List.sum_cons, mixerChildSize, tlvSize]
                omega
              · intro hlt c hc hd mc2 t v hceq
                rcases List.mem_cons.mp hc with hc | hc
                · subst hc
                  simp only [MixerChild.scalar.injEq] at hceq
                  obtain ⟨_, _, hnone⟩ := hceq
                  exact absurd hnone (by simp)
                · exact g4 hlt c hc hd mc2 t v hceq
      next =>
        split at h
        next =>
          split at h
          next => exact absurd h (by simp)
          next ec p2 hec =>
            obtain ⟨f1, f2, _, _, _⟩ := decodeEnumControl_some hec
            split at h
            next => exact absurd h (by simp)
            next rest pr hrest =>
              simp only [Option.some.injEq, Prod.mk.injEq] at h
              obtain ⟨hcs, hpp⟩ := h
              subst hcs
              subst hpp
              obtain ⟨g1, g2, g3, g4⟩ := ih p2 rest pr (by omega) hrest
              refine ⟨by simp [g1], ?_, g3, ?_⟩
              · simp only [List.map_cons, List.sum_cons, mixerChildSize]
                omega
              · intro hlt c hc hd mc2 t v hceq
                rcases List.mem_cons.mp hc with hc | hc
                · subst hc
                  exact absurd hceq (by simp)
                · exact g4 hlt c hc hd mc2 t v hceq
        next =>
          split at h
          next => exact absurd h (by simp)
          next rest pr hrest =>
            simp only [Option.some.injEq, Prod.mk.injEq] at h
            obtain ⟨hcs, hpp⟩ := h
            subst hcs
            subst hpp
            obtain ⟨g1, g2, g3, g4⟩ := ih p1 rest pr (by omega) hrest
            refine ⟨by simp [g1], ?_, g3, ?_⟩
            · simp only [List.map_cons, List.sum_cons, mixerChildSize]
              omega
            · intro hlt c hc hd mc2 t v hceq
              rcases List.mem_cons.mp hc with hc | hc
              · subst hc
                exact absurd hceq (by simp)
              · exact g4 hlt c hc hd mc2 t v hceq

theorem readChunks_spec (s : ByteSeq) (c : Nat) :
    ∀ n p, p ≤ s.length →
      (readChunks s c n p).1.length = n ∧
      (readChunks s c n p).2 = p + ((readChunks s c n p).1.map List.length).sum ∧
      (readChunks s c n p).2 ≤ s.length ∧
      ((readChunks s c n p).2 < s.length →
        ∀ ch ∈ (readChunks s c n p).1, ch.length = c) := by
  intro n
  induction n with
  | zero =>
    intro p hp
    refine ⟨rfl, by simp [readChunks], by simpa [readChunks] using hp, ?_⟩
    intro _ ch hch
    exact absurd hch (by simp [readChunks])
  | succ n ih =>
    intro p hp
    obtain ⟨r_eq, r_le, r_len_le, r_short, _⟩ := readRaw_spec s p c hp
    obtain ⟨g1, g2, g3, g4⟩ := ih (readRaw s p c).2 r_le
    have hch1 : (readChunks s c (n + 1) p).1 =
        (readRaw s p c).1 :: (readChunks s c n (readRaw s p c).2).1 := rfl
    have hch2 : (readChunks s c (n + 1) p).2 =
        (readChunks s c n (readRaw s p c).2).2 := rfl
    rw [hch1, hch2]
    have hfull : (readChunks s c n (readRaw s p c).2).2 < s.length →
        (readRaw s p c).1.length = c := by
      intro hlt
      by_cases hcase : (readRaw s p c).1.length < c
      · have := r_short hcase
        omega
      · omega
    refine ⟨by simp [g1], ?_, g3, ?_⟩
    · simp only [List.map_cons, List.sum_cons]
      omega
    · intro hlt ch hch
      rcases List.mem_cons.mp hch with hch | hch
      · subst hch
        exact hfull hlt
      · exact g4 hlt ch hch

theorem decodeCoeffCtl_spec {s : ByteSeq} {ch : SndSocFwControlHeader}
    {p : Nat} {eo : Option SndSocFwEnumControl} {p' : Nat}
    (h : decodeCoeffCtl s ch p = some (eo, p')) :
    p' = p + coeffEnumSize eo ∧ (p ≤ s.length → p' ≤ s.length) := by
  unfold decodeCoeffCtl at h
  split at h
  next =>
    split at h
    next => exact absurd h (by simp)
    next ec p2 hec =>
      simp only [Option.some.injEq, Prod.mk.injEq] at h
      obtain ⟨heo, hpp⟩ := h
      subst heo
      subst hpp
      obtain ⟨f1, f2, _, _, _⟩ := decodeEnumControl_some hec
      exact ⟨by simp [coeffEnumSize]; omega, fun _ => by omega⟩
  next =>
    simp only [Option.some.injEq, Prod.mk.injEq] at h
    obtain ⟨heo, hpp⟩ := h
    subst heo
    subst hpp
    exact ⟨by simp [coeffEnumSize], fun hp => hp⟩

theorem decodeCoeffBody_spec (s : ByteSeq) (p : Nat) (b : CoeffBody)
    (p' no : Nat) (h : decodeCoeffBody s p = some (b, p', no)) :
    b.chunks.length = b.data.count ∧
    p' = p + 84 + coeffEnumSize b.enumCtl + (b.chunks.map List.length).sum ∧
    no = p + 72 + coeffEnumSize b.enumCtl + b.nested.size ∧
    p' ≤ s.length ∧
    (p' < s.length → ∀ ch ∈ b.chunks,
      ch.length = b.data.size / b.data.count) := by
  unfold decodeCoeffBody at h
  split at h
  next => exact absurd h (by simp)
  next k p1 hk =>
    obtain ⟨e1, e2⟩ := decodeKControl_some hk
    split at h
    next => exact absurd h (by simp)
    next ch p2 hch =>
      obtain ⟨f1, f2, _, _⟩ := decodeControlHeader_some hch
      split at h
      next => exact absurd h (by simp)
      next eo p3 heo =>
        obtain ⟨c1, c2⟩ := decodeCoeffCtl_spec heo
        have hp3 : p3 ≤ s.length := c2 (by omega)
        split at h
        next => exact absurd h (by simp)
        next nh p4 hnh =>
          obtain ⟨n1, n2, _⟩ := decodeFwHeader_some hnh
          split at h
          next => exact absurd h (by simp)
          next cd p5 hcd =>
            obtain ⟨d1, d2⟩ := decodeCoeffData_some hcd
            obtain ⟨g1, g2, g3, g4⟩ :=
              readChunks_spec s (cd.size / cd.count) cd.count p5 (by omega)
            simp only [Option.some.injEq, Prod.mk.injEq] at h
            obtain ⟨hb, hpp, hno⟩ := h
            subst hb
            subst hpp
            subst hno
            refine ⟨g1, by dsimp only; omega, by dsimp only; omega, g3, g4⟩

theorem decodeVendorFw_spec {s : ByteSeq} {p : Nat} {b : AbeFw} {p' : Nat}
    (h : decodeVendorFw s p = some (b, p')) :
    p' = p + 20 + b.pmem.length + b.cmem.length + b.dmem.length +
      b.smem.length ∧ p' ≤ s.length := by
  unfold decodeVendorFw at h
  split at h
  next => exact absurd h (by simp)
  next abe p1 habe =>
    obtain ⟨e1, e2⟩ := decodeAbeFirmwareHeader_some habe
    split at h
    next pm p2 hpm =>
      have q2 := readRaw_snd s p1 abe.pmem_size
      have q2' := (readRaw_spec s p1 abe.pmem_size (by omega)).2.1
      rw [hpm] at q2 q2'
      dsimp only at q2 q2'
      split at h
      next cm p3 hcm =>
        have q3 := readRaw_snd s p2 abe.cmem_size
        have q3' := (readRaw_spec s p2 abe.cmem_size (by omega)).2.1
        rw [hcm] at q3 q3'
        dsimp only at q3 q3'
        split at h
        next dm p4 hdm =>
          have q4 := readRaw_snd s p3 abe.dmem_size
          have q4' := (readRaw_spec s p3 abe.dmem_size (by omega)).2.1
          rw [hdm] at q4 q4'
          dsimp only at q4 q4'
          split at h
          next sm p5 hsm =>
            have q5 := readRaw_snd s p4 abe.smem_size
            have q5' := (readRaw_spec s p4 abe.smem_size (by omega)).2.1
            rw [hsm] at q5 q5'
            dsimp only at q5 q5'
            simp only [Option.some.injEq, Prod.mk.injEq] at h
            obtain ⟨hb, hpp⟩ := h
            subst hb
            subst hpp
            dsimp only
            omega

/-! The claims. -/

/-- C1: for every block whose tag handler is fully specified (a Mixer block
all of whose controls classify, a DapmGraph block, a DapmWidget block all
of whose attached controls classify, a VendorFw block, a VendorConfig
block, and a handled Coeff block), and whose declared size is the
structural byte size of the body actually encoded (`wfFraming`), the
position after the body decoder equals the retained `next_offset`, so the
`assert fw.tell() == next_offset` check in the dispatch loop never fails
for such blocks. -/
theorem c1_block_framing (s : ByteSeq) (hdr : SndSocFwHeader) (p : Nat)
    (b : BlockBody) (p' nextOff : Nat) (hp : p ≤ s.length)
    (hdec : dispatchBody s hdr p = some (b, p', nextOff))
    (hspec : fullySpecified b) (hwf : wfFraming hdr b) :
    p' = nextOff := by
  unfold dispatchBody at hdec
  split at hdec
  next =>
    split at hdec
    next => exact absurd hdec (by simp)
    next k p1 hk =>
      split at hdec
      next => exact absurd hdec (by simp)
      next cs pr hcs =>
        simp only [Option.some.injEq, Prod.mk.injEq] at hdec
        obtain ⟨hb, hpp, hno⟩ := hdec
        subst hb
        subst hpp
        subst hno
        obtain ⟨e1, e2⟩ := decodeKControl_some hk
        obtain ⟨g1, g2, g3, _⟩ :=
          decodeMixerChildren_spec s k.count p1 cs pr (by omega) hcs
        simp only [wfFraming, bodyBytes] at hwf
        omega
  next =>
    split at hdec
    next =>
      split at hdec
      next => exact absurd hdec (by simp)
      next k p1 hk =>
        split at hdec
        next => exact absurd hdec (by simp)
        next rs pr hrs =>
          simp only [Option.some.injEq, Prod.mk.injEq] at hdec
          obtain ⟨hb, hpp, hno⟩ := hdec
          subst hb
          subst hpp
          subst hno
          obtain ⟨e1, e2⟩ := decodeKControl_some hk
          obtain ⟨g1, g2, g3⟩ :=
            decodeGraphElems_spec s k.count p1 rs pr (by omega) hrs
          simp only [wfFraming, bodyBytes] at hwf
          omega
    next =>
      split at hdec
      next =>
        split at hdec
        next => exact absurd hdec (by simp)
        next k p1 hk =>
          split at hdec
          next => exact absurd hdec (by simp)
          next ws pr hws =>
            simp only [Option.some.injEq, Prod.mk.injEq] at hdec
            obtain ⟨hb, hpp, hno⟩ := hdec
            subst hb
            subst hpp
            subst hno
            obtain ⟨e1, e2⟩ := decodeKControl_some hk
            obtain ⟨g1, g2, g3⟩ :=
              decodeWidgets_spec s k.count p1 ws pr (by omega) hws
            simp only [wfFraming, bodyBytes] at hwf
            omega
      next =>
        split at hdec
        next =>
          simp only [Option.some.injEq, Prod.mk.injEq] at hdec
          obtain ⟨hb, hpp, hno⟩ := hdec
          subst hb
          exact absurd hspec (by simp [fullySpecified])
        next =>
          split at hdec
          next =>
            split at hdec
            next =>
              split at hdec
              next => exact absurd hdec (by simp)
              next cb pr no hcb =>
                simp only [Option.some.injEq, Prod.mk.injEq] at hdec
                obtain ⟨hb, hpp, hno⟩ := hdec
                subst hb
                subst hpp
                subst hno
                obtain ⟨g1, g2, g3, g4, g5⟩ := decodeCoeffBody_spec s p cb pr no hcb
                simp only [wfFraming] at hwf
                omega
            next =>
              simp only [Option.some.injEq, Prod.mk.injEq] at hdec
              obtain ⟨hb, hpp, hno⟩ := hdec
              subst hb
              exact absurd hspec (by simp [fullySpecified])
          next =>
            split at hdec
            next =>
              split at hdec
              next => exact absurd hdec (by simp)
              next fwb pr hfw =>
                simp only [Option.some.injEq, Prod.mk.injEq] at hdec
                obtain ⟨hb, hpp, hno⟩ := hdec
                subst hb
                subst hpp
                subst hno
                obtain ⟨g1, g2⟩ := decodeVendorFw_spec hfw
                simp only [wfFraming, bodyBytes] at hwf
                omega
            next =>
              split at hdec
              next =>
                simp only [Option.some.injEq, Prod.mk.injEq] at hdec
                obtain ⟨hb, hpp, hno⟩ := hdec
                subst hb
                subst hpp
                subst hno
                have hsnd := readRaw_snd s p hdr.size
                simp only [wfFraming, bodyBytes] at hwf
                omega
              next =>
                simp only [Option.some.injEq, Prod.mk.injEq] at hdec
                obtain ⟨hb, hpp, hno⟩ := hdec
                subst hb
                exact absurd hspec (by simp [fullySpecified])

/-- Witness for C1: an empty DAPM graph block of declared size 4 decodes,
is fully specified and well framed, and its final position equals the
retained `next_offset`. -/
theorem c1_block_framing_witness :
    dispatchBody c1Stream c1Hdr 0 = some (BlockBody.graph 0 [], 4, 4) ∧
    fullySpecified (BlockBody.graph 0 []) ∧
    wfFraming c1Hdr (BlockBody.graph 0 []) ∧ (4 : Nat) = 4 := by
  have hdec : dispatchBody c1Stream c1Hdr 0 = some (BlockBody.graph 0 [], 4, 4) := by
    rfl
  refine ⟨hdec, trivial, by simp [wfFraming, bodyBytes, c1Hdr], ?_⟩
  exact c1_block_framing c1Stream c1Hdr 0 (BlockBody.graph 0 []) 4 4
    (by simp [c1Stream]) hdec trivial (by simp [wfFraming, bodyBytes, c1Hdr])

theorem decodeMixerChildren_children (s : ByteSeq) :
    ∀ n p cs p', decodeMixerChildren s n p = some (cs, p') →
      ∀ c ∈ cs,
        (∀ hd mc tlv, c = MixerChild.scalar hd mc tlv →
          hd.id_info ∈ mixerScalarCodes ∧ (tlv.isSome = true ↔ hd.tlv_size ≠ 0)) ∧
        (∀ hd ec, c = MixerChild.enum hd ec →
          hd.id_info ∉ mixerScalarCodes ∧ hd.id_info ∈ mixerEnumCodes) ∧
        (∀ hd, c = MixerChild.unsup hd →
          hd.id_info ∉ mixerScalarCodes ∧ hd.id_info ∉ mixerEnumCodes) := by
  intro n
  induction n with
  | zero =>
    intro p cs p' h
    unfold decodeMixerChildren at h
    simp only [Option.some.injEq, Prod.mk.injEq] at h
    obtain ⟨hcs, _⟩ := h
    subst hcs
    intro c hc
    exact absurd hc (by simp)
  | succ n ih =>
    intro p cs p' h
    unfold decodeMixerChildren at h
    split at h
    next => exact absurd h (by simp)
    next hdr p1 hh =>
      split at h
      next hscal =>
        split at h
        next => exact absurd h (by simp)
        next mc p2 hmc =>
          split at h
          next htlv =>
            split at h
            next => exact absurd h (by simp)
            next tlv p3 htl =>
              split at h
              next => exact absurd h (by simp)
              next rest pr hrest =>
                simp only [Option.some.injEq, Prod.mk.injEq] at h
                obtain ⟨hcs, _⟩ := h
                subst hcs
                intro c hc
                rcases List.mem_cons.mp hc with hc | hc
                · subst hc
                  refine ⟨?_, ?_, ?_⟩
                  · intro hd mc2 tlv2 hceq
                    simp only [MixerChild.scalar.injEq] at hceq
                    obtain ⟨h1, _, h3⟩ := hceq
                    subst h1
                    rw [← h3]
                    exact ⟨hscal, by simp [htlv]⟩
                  · intro hd ec hceq
                    exact absurd hceq (by simp)
                  · intro hd hceq
                    exact absurd hceq (by simp)
                · exact ih _ _ _ hrest c hc
          next htlv =>
            split at h
            next => exact absurd h (by simp)
            next rest pr hrest =>
              simp only [Option.some.injEq, Prod.mk.injEq] at h
              obtain ⟨hcs, _⟩ := h
              subst hcs
              intro c hc
              rcases List.mem_cons.mp hc with hc | hc
              · subst hc
                refine ⟨?_, ?_, ?_⟩
                · intro hd mc2 tlv2 hceq
                  simp only [MixerChild.scalar.injEq] at hceq
                  obtain ⟨h1, _, h3⟩ := hceq
                  subst h1
                  rw [← h3]
                  refine ⟨hscal, by simpa using htlv⟩
                · intro hd ec hceq
                  exact absurd hceq (by simp)
                · intro hd hceq
                  exact absurd hceq (by simp)
              · exact ih _ _ _ hrest c hc
      next hscal =>
        split at h
        next henum =>
          split at h
          next => exact absurd h (by simp)
          next ec p2 hec =>
            split at h
            next => exact absurd h (by simp)
            next rest pr hrest =>
              simp only [Option.some.injEq, Prod.mk.injEq] at h
              obtain ⟨hcs, _⟩ := h
              subst hcs
              intro c hc
              rcases List.mem_cons.mp hc with hc | hc
              · subst hc
                refine ⟨?_, ?_, ?_⟩
                · intro hd mc2 tlv2 hceq
                  exact absurd hceq (by simp)
                · intro hd ec2 hceq
                  simp only [MixerChild.enum.injEq] at hceq
                  obtain ⟨h1, _⟩ := hceq
                  subst h1
                  exact ⟨hscal, henum⟩
                · intro hd hceq
                  exact absurd hceq (by simp)
              · exact ih _ _ _ hrest c hc
        next henum =>
          split at h
          next => exact absurd h (by simp)
          next rest pr hrest =>
            simp only [Option.some.injEq, Prod.mk.injEq] at h
            obtain ⟨hcs, _⟩ := h
            subst hcs
            intro c hc
            rcases List.mem_cons.mp hc with hc | hc
            · subst hc
              refine ⟨?_, ?_, ?_⟩
              · intro hd mc2 tlv2 hceq
                exact absurd hceq (by simp)
              · intro hd ec2 hceq
                exact absurd hceq (by simp)
              · intro hd hceq
                simp only [MixerChild.unsup.injEq] at hceq
                subst hceq
                exact ⟨hscal, henum⟩
            · exact ih _ _ _ hrest c hc

/-- C8: in a Mixer block with count `N` the decoder runs exactly `N`
iterations, one ControlHeader each, accumulating all `N` children in
encounter order; every ScalarControl-classified header gets a
ScalarMixerControl, and a TLV record of `{numid, length}` followed by
exactly `length` raw bytes is additionally decoded if and only if the
header's `tlv_size` is nonzero.  The final-position bound rules out a
container truncated inside the block's trailing TLV, where a Python file
read silently returns fewer bytes. -/
theorem c8_mixer_block (s : ByteSeq) (hdr : SndSocFwHeader) (p n : Nat)
    (cs : List MixerChild) (p' nextOff : Nat) (htag : hdr.type = 1)
    (hdec : dispatchBody s hdr p = some (.mixer n cs, p', nextOff))
    (hfit : p' < s.length) :
    cs.length = n ∧
    (∀ c ∈ cs, ∀ hd mc tlv, c = MixerChild.scalar hd mc tlv →
      hd.id_info ∈ mixerScalarCodes ∧
      (tlv.isSome = true ↔ hd.tlv_size ≠ 0) ∧
      (∀ t v, tlv = some (t, v) → v.length = t.length)) := by
  unfold dispatchBody at hdec
  rw [if_pos htag] at hdec
  split at hdec
  next => exact absurd hdec (by simp)
  next k p1 hk =>
    split at hdec
    next => exact absurd hdec (by simp)
    next cs2 pr hcs =>
      simp only [Option.some.injEq, Prod.mk.injEq, BlockBody.mixer.injEq] at hdec
      obtain ⟨⟨hkn, hcs2⟩, hpp, _⟩ := hdec
      subst hkn
      subst hcs2
      subst hpp
      obtain ⟨e1, e2⟩ := decodeKControl_some hk
      obtain ⟨g1, g2, g3, g4⟩ :=
        decodeMixerChildren_spec s k.count p1 cs2 pr (by omega) hcs
      have hkids := decodeMixerChildren_children s k.count p1 cs2 pr hcs
      refine ⟨g1, ?_⟩
      intro c hc hd mc tlv hceq
      obtain ⟨hsc, _, _⟩ := hkids c hc
      obtain ⟨hmem, hiff⟩ := hsc hd mc tlv hceq
      refine ⟨hmem, hiff, ?_⟩
      intro t v htv
      subst htv
      exact g4 hfit c hc hd mc t v hceq

/-- Witness for C8: a mixer block with two scalar controls (codes 1 and
68, both TLV-free) decodes to exactly two children. -/
theorem c8_mixer_block_witness :
    c8Hdr.type = 1 ∧
    dispatchBody c8Stream c8Hdr 0 = some (BlockBody.mixer 2 c8Cs, 156, 156) ∧
    156 < c8Stream.length ∧ c8Cs.length = 2 := by
  have hdec : dispatchBody c8Stream c8Hdr 0 =
      some (BlockBody.mixer 2 c8Cs, 156, 156) := by rfl
  have hfit : 156 < c8Stream.length := by decide
  exact ⟨rfl, hdec, hfit,
    (c8_mixer_block c8Stream c8Hdr 0 2 c8Cs 156 156 rfl hdec hfit).1⟩

/-- The enumerated-control branch list is disjoint from the widget scalar
branch list. -/
theorem widget_enum_not_scalar : ∀ x ∈ mixerEnumCodes, x ∉ widgetScalarCodes := by
  decide

/-- C7 (amended): for a DAPM widget with `kcontrol_count = n ≠ 0`, one
ControlHeader is decoded and branched on; when its code is one of the
widget decoder's scalar codes 1,2,3,4,8,9,11,12,64 — the Mixer decoder's
table minus `DAPM_PIN` (68) — the decoder loops exactly `n` times, the
first iteration reusing the already-decoded header and every later
iteration consuming a fresh 44-byte header plus a 32-byte mixer record
(76 bytes per iteration); when the code is an enumerated code exactly one
EnumeratedControl is decoded regardless of `n`; code 68 falls to the
invalid-control branch, decoding nothing further. -/
theorem c7_widget_controls (s : ByteSeq) (n p : Nat) (cs : List WidgetChild)
    (p' : Nat) (h0 : SndSocFwControlHeader) (p1 : Nat) (hn : n ≠ 0)
    (hdec : decodeWidgetControls s n p = some (cs, p'))
    (hhdr : decodeControlHeader s p = some (h0, p1)) :
    (h0.id_info ∈ widgetScalarCodes →
      cs.length = n ∧ p' = p + 76 * n ∧ (∀ c ∈ cs, c.isScalar = true) ∧
      ∃ mc rest, cs = WidgetChild.scalar h0 mc :: rest) ∧
    (h0.id_info ∈ mixerEnumCodes →
      ∃ ec, cs = [WidgetChild.enum h0 ec] ∧ p' = p1 + 1052) ∧
    (h0.id_info ∉ widgetScalarCodes → h0.id_info ∉ mixerEnumCodes →
      cs = [WidgetChild.unsup h0] ∧ p' = p1) := by
  unfold decodeWidgetControls at hdec
  rw [if_neg hn] at hdec
  split at hdec
  next => exact absurd hdec (by simp)
  next hd q hh =>
    have heq := hh.symm.trans hhdr
    simp only [Option.some.injEq, Prod.mk.injEq] at heq
    obtain ⟨hhd, hq⟩ := heq
    subst hhd
    subst hq
    obtain ⟨e1, e2, _, _⟩ := decodeControlHeader_some hh
    split at hdec
    next hscal =>
      split at hdec
      next => exact absurd hdec (by simp)
      next mc p2 hmc =>
        split at hdec
        next => exact absurd hdec (by simp)
        next rest pr hrest =>
          simp only [Option.some.injEq, Prod.mk.injEq] at hdec
          obtain ⟨hcs, hpp⟩ := hdec
          subst hcs
          subst hpp
          obtain ⟨f1, f2⟩ := decodeMixerControl_some hmc
          obtain ⟨g1, g2, g3, g4⟩ :=
            decodeWidgetScalarLoop_spec s (n - 1) p2 rest pr (by omega) hrest
          refine ⟨?_, ?_, ?_⟩
          · intro _
            refine ⟨by simp [g1]; omega, by omega, ?_, mc, rest, rfl⟩
            intro c hc
            rcases List.mem_cons.mp hc with hc | hc
            · subst hc; rfl
            · exact g4 c hc
          · intro henum
            exact absurd hscal (widget_enum_not_scalar _ henum)
          · intro hnot _
            exact absurd hscal hnot
    next hscal =>
      split at hdec
      next henum =>
        split at hdec
        next => exact absurd hdec (by simp)
        next ec p2 hec =>
          simp only [Option.some.injEq, Prod.mk.injEq] at hdec
          obtain ⟨hcs, hpp⟩ := hdec
          subst hcs
          subst hpp
          obtain ⟨f1, _, _, _, _⟩ := decodeEnumControl_some hec
          refine ⟨?_, ?_, ?_⟩
          · intro hin
            exact absurd hin hscal
          · intro _
            exact ⟨ec, rfl, by omega⟩
          · intro _ hnotenum
            exact absurd henum hnotenum
      next henum =>
        simp only [Option.some.injEq, Prod.mk.injEq] at hdec
        obtain ⟨hcs, hpp⟩ := hdec
        subst hcs
        subst hpp
        refine ⟨?_, ?_, ?_⟩
        · intro hin
          exact absurd hin hscal
        · intro hin
          exact absurd hin henum
        · intro _ _
          exact ⟨rfl, rfl⟩

/-- C7 counterexample: code 68 (`DAPM_PIN`) is a ScalarControl code of the
classifier table, yet for a widget with `kcontrol_count = 2` the decoder
files the lone header as an invalid control and decodes no mixer control,
advancing only 44 bytes — it does not loop `kcontrol_count` times. -/
theorem c7_widget_controls_counterexample :
    classify 68 = some ControlKind.scalar ∧
    decodeControlHeader c7xStream 0 = some (c7xHdr, 44) ∧
    decodeWidgetControls c7xStream 2 0 = some ([WidgetChild.unsup c7xHdr], 44) ∧
    ([WidgetChild.unsup c7xHdr].length = 1 ∧ (1 : Nat) ≠ 2) := by
  exact ⟨by decide, by rfl, by rfl, rfl, by decide⟩

/-- Witness for C7: a widget with `kcontrol_count = 2` and code 64 decodes
two scalar controls, 76 bytes per iteration. -/
theorem c7_widget_controls_witness :
    decodeWidgetControls c7wStream 2 0 =
      some ([WidgetChild.scalar c7wHdr mc0, WidgetChild.scalar c7wHdr mc0], 152) ∧
    [WidgetChild.scalar c7wHdr mc0, WidgetChild.scalar c7wHdr mc0].length = 2 ∧
    (152 : Nat) = 0 + 76 * 2 := by
  have hdec : decodeWidgetControls c7wStream 2 0 =
      some ([WidgetChild.scalar c7wHdr mc0, WidgetChild.scalar c7wHdr mc0], 152) := by
    rfl
  have hhdr : decodeControlHeader c7wStream 0 = some (c7wHdr, 44) := by rfl
  have h := (c7_widget_controls c7wStream 2 0
    [WidgetChild.scalar c7wHdr mc0, WidgetChild.scalar c7wHdr mc0] 152 c7wHdr 44
    (by decide) hdec hhdr).1 (by decide)
  exact ⟨hdec, h.1, h.2.1⟩

/-- C6 (amended): after the CoefficientSet descriptor `{count, byte_size,
id}` is decoded, the decoder reads exactly `count` chunks of
`byte_size / count` (floor-divided) bytes each; the bytes consumed by the
chunks total `count * (byte_size / count)`, which equals `byte_size`
exactly when `count` divides `byte_size`.  The final-position bound rules
out a container truncated inside the chunk region, where a Python file
read silently returns fewer bytes. -/
theorem c6_coeff_chunks (s : ByteSeq) (p : Nat) (b : CoeffBody) (p' no : Nat)
    (hdec : decodeCoeffBody s p = some (b, p', no)) (hfit : p' < s.length) :
    b.chunks.length = b.data.count ∧
    (∀ ch ∈ b.chunks, ch.length = b.data.size / b.data.count) ∧
    (b.chunks.map List.length).sum =
      b.data.count * (b.data.size / b.data.count) ∧
    ((b.chunks.map List.length).sum = b.data.size ↔
      b.data.count ∣ b.data.size) := by
  obtain ⟨g1, g2, g3, g4, g5⟩ := decodeCoeffBody_spec s p b p' no hdec
  have hall := g5 hfit
  have hsum : (b.chunks.map List.length).sum =
      b.data.size / b.data.count * b.chunks.length :=
    sum_map_const List.length (b.data.size / b.data.count) b.chunks hall
  rw [g1] at hsum
  have hsum2 : (b.chunks.map List.length).sum =
      b.data.count * (b.data.size / b.data.count) := by
    rw [hsum]
    ring
  refine ⟨g1, hall, hsum2, ?_⟩
  rw [hsum2]
  constructor
  · intro h
    exact ⟨b.data.size / b.data.count, h.symm⟩
  · intro h
    exact Nat.mul_div_cancel' h

/-- C6 counterexample: with descriptor count 3 and byte_size 10 the three
chunks hold 3 bytes each, 9 bytes in total — not the descriptor's 10 — so
the chunks do not total `byte_size` for every `count` and `byte_size`. -/
theorem c6_coeff_chunks_counterexample :
    decodeCoeffBody c6xStream 0 =
      some (⟨1, ⟨[], 0, 0, 0, 0⟩, none, ⟨[65, 66, 67, 68], 1, 5, 0, 0, 21⟩,
        ⟨3, 10, 7⟩, [[1, 2, 3], [4, 5, 6], [7, 8, 9]]⟩, 93, 93) ∧
    (([[1, 2, 3], [4, 5, 6], [7, 8, 9]] : List (List Nat)).map
      List.length).sum = 9 ∧ (9 : Nat) ≠ 10 := by
  exact ⟨by rfl, by rfl, by decide⟩

/-- Witness for C6: a descriptor with count 2 and byte_size 6 yields two
3-byte chunks totalling the full 6 declared bytes. -/
theorem c6_coeff_chunks_witness :
    decodeCoeffBody c6wStream 0 = some (c6wBody, 90, 90) ∧
    90 < c6wStream.length ∧
    c6wBody.chunks.length = 2 ∧
    (c6wBody.chunks.map List.length).sum = c6wBody.data.size := by
  have hdec : decodeCoeffBody c6wStream 0 = some (c6wBody, 90, 90) := by rfl
  have hfit : 90 < c6wStream.length := by decide
  have h := c6_coeff_chunks c6wStream 0 c6wBody 90 90 hdec hfit
  exact ⟨hdec, hfit, h.1, h.2.2.2.mpr (by decide)⟩

theorem dictInsert_fresh (m : List (List Nat × Nat)) (k : List Nat) (v : Nat)
    (hk : ∀ q ∈ m, q.1 ≠ k) : dictInsert m k v = m ++ [(k, v)] := by
  have hc : ¬(m.any (fun q => q.1 == k) = true) := by
    intro hany
    rw [List.any_eq_true] at hany
    obtain ⟨q, hq, hqk⟩ := hany
    exact hk q hq (by simpa using hqk)
  unfold dictInsert
  rw [if_neg hc]

theorem buildEnumDict_eq :
    ∀ (ts : List (List Nat)) (vs : List Nat) (acc : List (List Nat × Nat)),
      (ts.filter (fun t => t ≠ [])).Nodup →
      (∀ q ∈ acc, ∀ t ∈ ts, t ≠ [] → q.1 ≠ t) →
      buildEnumDict ts vs acc =
        acc ++ (ts.zip vs).filter (fun q => q.1 ≠ []) := by
  intro ts
  induction ts with
  | nil =>
    intro vs acc _ _
    simp [buildEnumDict]
  | cons t ts ih =>
    intro vs acc hnd hdisj
    cases vs with
    | nil => simp [buildEnumDict]
    | cons v vs =>
      by_cases ht : t = []
      · have hstep : buildEnumDict (t :: ts) (v :: vs) acc =
            buildEnumDict ts vs acc := by
          conv in buildEnumDict (t :: ts) (v :: vs) acc => unfold buildEnumDict
          rw [if_pos ht]
        rw [hstep]
        rw [ih vs acc (by simpa [List.filter_cons, ht] using hnd)
          (fun q hq u hu hune => hdisj q hq u (List.mem_cons_of_mem t hu) hune)]
        simp [List.zip_cons_cons, List.filter_cons, ht]
      · have hfresh : dictInsert acc t v = acc ++ [(t, v)] :=
          dictInsert_fresh acc t v
            (fun q hq => hdisj q hq t (List.mem_cons_self t ts) ht)
        have hstep : buildEnumDict (t :: ts) (v :: vs) acc =
            buildEnumDict ts vs (acc ++ [(t, v)]) := by
          conv in buildEnumDict (t :: ts) (v :: vs) acc => unfold buildEnumDict
          rw [if_neg ht, hfresh]
        have hfc : (t :: ts).filter (fun u => u ≠ []) =
            t :: ts.filter (fun u => u ≠ []) := by
          simp [List.filter_cons, ht]
        rw [hfc] at hnd
        have hnd' := (List.nodup_cons.mp hnd).2
        have htnotin := (List.nodup_cons.mp hnd).1
        rw [hstep]
        rw [ih vs (acc ++ [(t, v)]) hnd' ?_]
        · simp [List.zip_cons_cons, List.filter_cons, ht]
        · intro q hq u hu hune
          rcases List.mem_append.mp hq with hq | hq
          · exact hdisj q hq u (List.mem_cons_of_mem t hu) hune
          · have hq' : q = (t, v) := by simpa using hq
            subst hq'
            intro htu
            have htu2 : t = u := htu
            apply htnotin
            rw [htu2]
            simp only [List.mem_filter]
            exact ⟨hu, by simpa using hune⟩

/-- C9 (amended): for every decoded EnumeratedControl whose non-empty text
labels are pairwise distinct, the exported mapping contains exactly one
entry per non-empty label, pairing it with the 32-bit value at the same
slot position, and empty-string label slots contribute no entry; with
duplicate labels, Python-dict insertion collapses them to a single entry
holding the last occurrence's value. -/
theorem c9_enum_export (s : ByteSeq) (p : Nat) (ec : SndSocFwEnumControl)
    (p' : Nat) (hdec : decodeEnumControl s p = some (ec, p'))
    (hnd : (ec.texts.filter (fun t => t ≠ [])).Nodup) :
    ec.values = (ec.texts.zip (ec.vals.take 16)).filter (fun q => q.1 ≠ []) := by
  obtain ⟨_, _, _, _, hv⟩ := decodeEnumControl_some hdec
  rw [hv]
  rw [buildEnumDict_eq ec.texts (ec.vals.take 16) [] hnd
    (fun q hq => absurd hq (by simp))]
  simp

/-- C9 counterexample: with the duplicate non-empty label `A` (byte 65) in
slots 0 and 1, paired with values 0 and 1, the exported mapping holds the
single entry (A, 1): the entry (A, 0) demanded for non-empty slot 0 is
absent, so the mapping does not pair every non-empty label slot with the
value at that slot. -/
theorem c9_enum_export_counterexample :
    decodeEnumControl c9xStream 0 = some (c9xEc, 1052) ∧
    c9xEc.texts.getD 0 [] = [65] ∧ (([65] : List Nat) ≠ []) ∧
    c9xEc.vals.getD 0 9 = 0 ∧ c9xEc.values = [([65], 1)] ∧
    ([65], 0) ∉ c9xEc.values := by
  refine ⟨by rfl, by rfl, by decide, by rfl, by rfl, by decide⟩

/-- Witness for C9: the Off/On example — labels Off and On in slots 0 and
1, values 0 and 1, all other slots empty — exports exactly the two pairs
(Off, 0) and (On, 1). -/
theorem c9_enum_export_witness :
    decodeEnumControl c9wStream 0 = some (c9wEc, 1052) ∧
    (c9wEc.texts.filter (fun t => t ≠ [])).Nodup ∧
    c9wEc.values =
      (c9wEc.texts.zip (c9wEc.vals.take 16)).filter (fun q => q.1 ≠ []) ∧
    c9wEc.values = [([79, 102, 102], 0), ([79, 110], 1)] := by
  have hdec : decodeEnumControl c9wStream 0 = some (c9wEc, 1052) := by rfl
  have hnd : (c9wEc.texts.filter (fun t => t ≠ [])).Nodup := by decide
  exact ⟨hdec, hnd, c9_enum_export c9wStream 0 c9wEc 1052 hdec hnd, by rfl⟩

/-- C10: decoding an EnumeratedControl always advances the cursor by
exactly 1052 bytes (28 bytes of seven 32-bit fields plus the 1024-byte
payload); the payload's value region — its 512 bytes from offset 512 —
holds 128 little-endian 32-bit values, and the exported mapping depends
only on the 16 texts and the first 16 values, so the remaining 112 values
are read but never exposed. -/
theorem c10_enum_layout (s : ByteSeq) (p : Nat) (ec : SndSocFwEnumControl)
    (p' : Nat) (hdec : decodeEnumControl s p = some (ec, p')) :
    p' = p + 1052 ∧ ec.vals.length = 128 ∧ ec.texts.length = 16 ∧
    (∀ i, i < 128 → ec.vals.getD i 0 =
      le32 ((((s.drop p).take 1052).drop 28).drop (512 + 4 * i))) ∧
    (∀ s2 p2 ec2 q2, decodeEnumControl s2 p2 = some (ec2, q2) →
      ec2.texts = ec.texts → ec2.vals.take 16 = ec.vals.take 16 →
      ec2.values = ec.values) := by
  obtain ⟨h1, h2, htexts, hvals, hv⟩ := decodeEnumControl_some hdec
  refine ⟨h1, by rw [hvals]; simp, by rw [htexts]; simp, ?_, ?_⟩
  · intro i hi
    rw [hvals, List.getD_eq_getElem?_getD, List.getElem?_map,
      List.getElem?_range hi]
    simp
  · intro s2 p2 ec2 q2 hdec2 hte hva
    obtain ⟨_, _, _, _, hv2⟩ := decodeEnumControl_some hdec2
    rw [hv, hv2, hte, hva]

/-- Witness for C10: the all-zero 1052-byte record decodes, consuming
exactly 1052 bytes and parsing 128 values. -/
theorem c10_enum_layout_witness :
    decodeEnumControl c10Stream 0 = some (c10Ec, 1052) ∧
    (1052 : Nat) = 0 + 1052 ∧ c10Ec.vals.length = 128 := by
  have hdec : decodeEnumControl c10Stream 0 = some (c10Ec, 1052) := by rfl
  have h := c10_enum_layout c10Stream 0 c10Ec 1052 hdec
  exact ⟨hdec, h.1, h.2.1⟩

/-- C2 (amended): for every 8-bit code, the classification performed on a
control header's low index byte yields ScalarControl exactly for codes
1,2,3,4,8,9,11,12,64,68, EnumeratedControl exactly for 6,7,10,65,66,67,69,
and Unsupported exactly for code 0 — but for every code outside the
`SocType` enumeration it raises `ValueError` (modelled as `none`) instead
of returning Unsupported. -/
theorem c2_classifier_table (c : Fin 256) :
    (((c : Nat) ∈ ([1, 2, 3, 4, 8, 9, 11, 12, 64, 68] : List Nat)) ↔
      classify (c : Nat) = some ControlKind.scalar) ∧
    (((c : Nat) ∈ ([6, 7, 10, 65, 66, 67, 69] : List Nat)) ↔
      classify (c : Nat) = some ControlKind.enumerated) ∧
    (((c : Nat) = 0) ↔ classify (c : Nat) = some ControlKind.unsupported) ∧
    (((c : Nat) ∉ socTypeCodes) ↔ classify (c : Nat) = none) := by
  revert c
  decide

/-- C2 counterexample: code 5 lies outside the classification table, yet
classification raises (`SocType(5)` is a `ValueError`) instead of
returning Unsupported, and a control header whose index low byte is 5
fails to decode even with all 44 bytes present. -/
theorem c2_classifier_counterexample :
    classify 5 = none ∧ classify 5 ≠ some ControlKind.unsupported ∧
    c2xStream.length = 44 ∧ decodeControlHeader c2xStream 0 = none := by
  exact ⟨by rfl, by decide, by rfl, by rfl⟩

theorem getD_take_of_lt (l : List Nat) (m j : Nat) (h : j < m) :
    (l.take m).getD j 0 = l.getD j 0 := by
  rw [List.getD_eq_getElem?_getD, List.getD_eq_getElem?_getD,
    List.getElem?_take, if_pos h]

theorem getD_drop (l : List Nat) (k i : Nat) :
    (l.drop k).getD i 0 = l.getD (k + i) 0 := by
  rw [List.getD_eq_getElem?_getD, List.getD_eq_getElem?_getD,
    List.getElem?_drop]

theorem le32_take_drop (l : List Nat) (m k : Nat) (h : k + 4 ≤ m) :
    le32 ((l.take m).drop k) = le32 (l.drop k) := by
  unfold le32
  rw [getD_drop (l.take m) k 0, getD_drop (l.take m) k 1,
    getD_drop (l.take m) k 2, getD_drop (l.take m) k 3,
    getD_drop l k 0, getD_drop l k 1, getD_drop l k 2, getD_drop l k 3,
    getD_take_of_lt l m (k + 0) (by omega), getD_take_of_lt l m (k + 1) (by omega),
    getD_take_of_lt l m (k + 2) (by omega), getD_take_of_lt l m (k + 3) (by omega)]

/-- C3 (amended): the header's 4-byte magic field is decoded and recorded
but never compared against any expected signature — header decoding
succeeds for every (ASCII) magic value whenever 24 bytes remain and the
type field is a `FwType` member, and the produced header simply carries
whatever magic bytes were present. -/
theorem c3_magic_never_checked (s : ByteSeq) (p : Nat)
    (hlen : p + 24 ≤ s.length)
    (hascii : ∀ b ∈ (s.drop p).take 4, b < 128)
    (hty : le32 ((s.drop p).drop 8) ∈ fwTypeCodes) :
    decodeFwHeader s p = some (⟨(s.drop p).take 4, le32 ((s.drop p).drop 4),
      le32 ((s.drop p).drop 8), le32 ((s.drop p).drop 12),
      le32 ((s.drop p).drop 16), le32 ((s.drop p).drop 20)⟩, p + 24) := by
  have hre : readExact s p 24 = some ((s.drop p).take 24, p + 24) := by
    unfold readExact
    rw [if_pos hlen]
  unfold decodeFwHeader
  rw [hre]
  dsimp only
  rw [le32_take_drop (s.drop p) 24 8 (by omega)]
  rw [if_pos hty]
  rw [le32_take_drop (s.drop p) 24 4 (by omega),
    le32_take_drop (s.drop p) 24 12 (by omega),
    le32_take_drop (s.drop p) 24 16 (by omega),
    le32_take_drop (s.drop p) 24 20 (by omega),
    List.take_take]
  norm_num

/-- C3 counterexample: two headers that differ only in their magic bytes
(`XXXX` and `YYYY`) both decode successfully into blocks; whatever single
4-byte signature were expected, at least one of the two magics differs
from it, yet neither decode fails — there is no `BadMagic` path. -/
theorem c3_bad_magic_counterexample :
    decodeFwHeader c3xStream1 0 = some (⟨[88, 88, 88, 88], 1, 4, 0, 0, 0⟩, 24) ∧
    decodeFwHeader c3xStream2 0 = some (⟨[89, 89, 89, 89], 1, 4, 0, 0, 0⟩, 24) ∧
    ([88, 88, 88, 88] : List Nat) ≠ [89, 89, 89, 89] := by
  exact ⟨by rfl, by rfl, by decide⟩

/-- Witness for C3: a header with magic `ZZZZ` decodes to a block carrying
that magic. -/
theorem c3_magic_never_checked_witness :
    decodeFwHeader c3wStream 0 =
      some (⟨[90, 90, 90, 90], 1, 4, 0, 0, 0⟩, 24) := by
  have h := c3_magic_never_checked c3wStream 0 (by decide) (by decide) (by decide)
  exact h.trans (by rfl)

/-- C4: a block with `abi_version != 1` does not abort the decode with an
UnsupportedAbi error: the script only logs, keeps the previous `hdr`
variable, and carries on.  On this container the second block claims ABI
2; its 24 header bytes are consumed as config payload for the stale first
header and the whole decode finishes successfully with a duplicate entry.
When the very first block has a bad ABI the script instead crashes
referencing the never-assigned `hdr` variable (`UnboundLocalError`). -/
theorem c4_bad_abi_not_fatal :
    decodeAll c4Stream 3 = some (Except.ok
      [⟨c4Hdr1, BlockBody.config (List.replicate 24 7)⟩,
       ⟨c4Hdr1, BlockBody.config c4Block2⟩]) ∧
    decodeAll c4Block2 2 = some (Except.error DecodeErr.unboundLocal) := by
  exact ⟨by rfl, by rfl⟩

/-- C5: the dispatcher does not skip `declared_size` bytes for unsupported
tags: a DAI-link block of declared size 4 leaves its payload unread, so
the `assert fw.tell() == next_offset` check fails and decoding aborts —
it does not continue with the next block; and a tag value outside the
`FwType` enum aborts even earlier, in header decoding, before any
diagnostic. -/
theorem c5_unsupported_tag_not_skipped :
    decodeAll c5Stream 2 = some (Except.error DecodeErr.assertFailed) ∧
    decodeAll c5xStream 1 = some (Except.error DecodeErr.decodeFail) := by
  exact ⟨by rfl, by rfl⟩

end Abefw
